import Mathlib

/-!
Verification development for the weatherInTheField telemetry synchronizer.

The repository is a Go service that periodically pulls sensor readings from a
remote weather API and stores them in a SQL database.  This file gives a
shallow embedding of its core logic:

* the period planner of `cmd/weatherservice` (`processDevice`,
  `splitTimePeriodByMonth`, `splitTimePeriodByDays`),
* the sensor-watermark scan of `processDevice`,
* the ingestion sink `StoreTelemetry` of `pkg/database`,
* the API client retry skeleton and telemetry transformation of
  `pkg/api` (`GetTelemetry`, `GetDevices`).

Go `int64` values are embedded as `Int` (no overflow is modelled; all claims
concern times far below the `int64` range).  Go `float64` values reach this
code only as opaque payloads compared against literal `0` and copied, never
operated on arithmetically, so they are embedded as `Rat`.  Go maps are
embedded as association lists in first-insertion order; every property proved
about them is independent of iteration order.  Time is modelled in UTC
(the spec fixes the store-local timezone as UTC-from-epoch).
-/

/-!
The month splitter works on Go `time.Time` values via `time.Unix`,
`Year`/`Month`/`Day`, `time.Date(y, m, 1, 0, 0, 0, 0, loc)` and
`AddDate(0, 1, 0)`.  These are the conversions of the proleptic Gregorian
calendar (modelled in UTC, as fixed by the spec).  The calendar is embedded
by its defining recurrences rather than by the internal Go day-counting
algorithm: `jan1 y` is the day number (days since 1970-01-01) of January 1st
of year `y`, and `daysBeforeMonth`/`monthLen` are the standard month tables.
-/

/-- Go integer division (`/` on `int64`) truncates toward zero. -/
def goDiv (a b : Int) : Int := Int.tdiv a b

/-- The `timePeriod` struct of `cmd/weatherservice`: a half-open time window
`[from, to)` in epoch milliseconds.  Go field names `from`/`to` are rendered
`fromMs`/`toMs` (`from` is a Lean keyword). -/
structure timePeriod where
  fromMs : Int
  toMs : Int
deriving DecidableEq, Repr

/-- The loop body of `splitTimePeriodByDays`: starting at `current`, emit
windows `[current, min(current+intervalMs, tsTo))` while `current < tsTo`.
The Go loop consumes no fuel; the fuel argument only bounds the recursion
depth and is chosen large enough at the call site (the loop advances by
`intervalMs ≥ 1` per iteration whenever `0 < intervalMs`; for
`intervalMs ≤ 0` the Go loop does not terminate at all). -/
def splitDaysGo (tsTo intervalMs : Int) : Nat → Int → List timePeriod
  | 0, _ => []
  | fuel+1, current =>
    if current < tsTo then
      let periodEnd := if current + intervalMs > tsTo then tsTo else current + intervalMs
      ⟨current, periodEnd⟩ :: splitDaysGo tsTo intervalMs fuel periodEnd
    else []

/-- The function `splitTimePeriodByDays` from `cmd/weatherservice`: splits `[tsFrom, tsTo)`
into windows of `days` days (`intervalMs = days*24*60*60*1000`), the last one
clipped to `tsTo`. -/
def splitTimePeriodByDays (tsFrom tsTo : Int) (days : Int) : List timePeriod :=
  splitDaysGo tsTo (days * 86400000) (tsTo - tsFrom).toNat tsFrom

/-- A window list `ps` is a chain from `lo` to `hi`: consecutive windows are
adjacent (contiguous, hence non-overlapping), every window is non-empty, and
the union of the windows is exactly `[lo, hi)`. -/
def isChain : Int → List timePeriod → Int → Prop
  | lo, [], hi => lo = hi
  | lo, p :: ps, hi => p.fromMs = lo ∧ p.fromMs < p.toMs ∧ isChain p.toMs ps hi

instance instDecIsChain : (lo : Int) → (ps : List timePeriod) → (hi : Int) →
    Decidable (isChain lo ps hi)
  | lo, [], hi => by unfold isChain; infer_instance
  | lo, p :: ps, hi => by
    unfold isChain
    have := instDecIsChain p.toMs ps hi
    infer_instance

/-- Lines 161–166 of `processDevice`: the lower fetch bound for existing
sensors is `minTsFrom + 1` when a watermark in the past exists, and otherwise
falls back to `now` minus the standard 15-minute interval. -/
def computeTsFrom (now minTsFrom : Int) : Int :=
  if minTsFrom < now ∧ 0 < minTsFrom then minTsFrom + 1 else now - 900000

/-- Lines 207–221 of `processDevice`: the window list requested for existing
sensors.  If `tsFrom` is more than 30 days (`2592000000` ms) in the past the
range is split into 30-day windows, otherwise a single window is used. -/
def planExistingPeriods (now tsFrom : Int) : List timePeriod :=
  if tsFrom < now - 2592000000 then splitTimePeriodByDays tsFrom now 30
  else [⟨tsFrom, now⟩]

/-- The planner for existing sensors as a function of the minimum watermark:
`computeTsFrom` followed by `planExistingPeriods`. -/
def plannerExisting (now minTsFrom : Int) : List timePeriod :=
  planExistingPeriods now (computeTsFrom now minTsFrom)

/-- Accumulator of the sensor-watermark scan loop of `processDevice`
(lines 124–159): the `sensorLastTs` map (kept as an association list in
insertion order), the two sensor groups, and the running minimum watermark
`minTsFrom` (initialised to `now`). -/
structure ScanAcc where
  sensorLastTs : List (String × Int)
  newSensors : List String
  existingSensors : List String
  minTsFrom : Int
deriving DecidableEq, Repr

/-- One iteration of the scan loop: an entry is a sensor key together with
the outcome of `GetLatestTelemetryTimestamp` (an error, or a last timestamp
with `0` meaning "no rows").  On error the sensor is treated as new and the
loop continues; on success with a positive timestamp the sensor is existing
and lowers `minTsFrom`; otherwise it is new. -/
def scanStep (acc : ScanAcc) (e : String × Except Unit Int) : ScanAcc :=
  match e.2 with
  | .error _ => { acc with newSensors := acc.newSensors ++ [e.1] }
  | .ok lastTs =>
    let acc1 : ScanAcc := { acc with sensorLastTs := acc.sensorLastTs ++ [(e.1, lastTs)] }
    if 0 < lastTs then
      { acc1 with
        existingSensors := acc1.existingSensors ++ [e.1],
        minTsFrom := if lastTs < acc1.minTsFrom then lastTs else acc1.minTsFrom }
    else { acc1 with newSensors := acc1.newSensors ++ [e.1] }

/-- The watermark scan over all configured sensor keys of one station. -/
def scanSensors (now : Int) (rs : List (String × Except Unit Int)) : ScanAcc :=
  rs.foldl scanStep ⟨[], [], [], now⟩

/-- Classification of one scan entry as "new" (read error, or no stored
rows). -/
def newKeyOf (e : String × Except Unit Int) : Option String :=
  match e.2 with
  | .error _ => some e.1
  | .ok lastTs => if 0 < lastTs then none else some e.1

/-- Classification of one scan entry as "existing" (positive last
timestamp). -/
def existingKeyOf (e : String × Except Unit Int) : Option String :=
  match e.2 with
  | .error _ => none
  | .ok lastTs => if 0 < lastTs then some e.1 else none

/-- The watermark carried by one scan entry, if any. -/
def watermarkOf (e : String × Except Unit Int) : Option Int :=
  match e.2 with
  | .error _ => none
  | .ok lastTs => if 0 < lastTs then some lastTs else none

/-- The recorded `sensorLastTs` pair of one scan entry, if any. -/
def lastTsPairOf (e : String × Except Unit Int) : Option (String × Int) :=
  match e.2 with
  | .error _ => none
  | .ok lastTs => some (e.1, lastTs)

/-- Gregorian leap-year rule. -/
def isLeap (y : Int) : Bool := y % 4 = 0 && (y % 100 != 0 || y % 400 = 0)

/-- Number of days of year `y`. -/
def daysInYear (y : Int) : Int := if isLeap y then 366 else 365

/-- Day number (days since epoch 1970-01-01) of January 1st of year `y`.
`477` is the number of leap years before 1970 relative to the same count. -/
def jan1 (y : Int) : Int :=
  365 * (y - 1970) + ((y - 1) / 4 - (y - 1) / 100 + (y - 1) / 400) - 477

/-- Length of month `m` of year `y`. -/
def monthLen (y m : Int) : Int :=
  if m = 2 then (if isLeap y then 29 else 28)
  else if m = 4 ∨ m = 6 ∨ m = 9 ∨ m = 11 then 30 else 31

/-- Days of year `y` strictly before month `m` (0 for January). -/
def daysBeforeMonth (y m : Int) : Int :=
  (if 1 < m then 31 else 0) + (if 2 < m then (if isLeap y then 29 else 28) else 0)
  + (if 3 < m then 31 else 0) + (if 4 < m then 30 else 0) + (if 5 < m then 31 else 0)
  + (if 6 < m then 30 else 0) + (if 7 < m then 31 else 0) + (if 8 < m then 31 else 0)
  + (if 9 < m then 30 else 0) + (if 10 < m then 31 else 0) + (if 11 < m then 30 else 0)
  + (if 12 < m then 31 else 0)

/-- Day number of the civil date `(y, m, d)` (Gregorian, UTC). -/
def daysFromCivil (y m d : Int) : Int := jan1 y + daysBeforeMonth y m + (d - 1)

/-- Year search: starting from a year `y` with `jan1 y ≤ z`, advance until
`z < jan1 (y+1)`.  The fuel (400 at the call site) bounds the recursion and
is sufficient because the start year is at most 400 years below the target. -/
def findYearGo (z : Int) : Nat → Int → Int
  | 0, y => y
  | fuel+1, y => if z < jan1 (y + 1) then y else findYearGo z fuel (y + 1)

/-- The year containing day number `z`: reduce by whole 400-year cycles
(146097 days each), then search within one cycle. -/
def yearOfDay (z : Int) : Int :=
  findYearGo z 400 (1601 + 400 * ((z - jan1 1601) / 146097))

/-- Month search within a year: smallest `m ≤ 12` with
`dy < daysBeforeMonth y (m+1)`. -/
def findMonthGo (y dy : Int) : Nat → Int → Int
  | 0, m => m
  | fuel+1, m =>
    if 12 ≤ m then 12
    else if dy < daysBeforeMonth y (m + 1) then m else findMonthGo y dy fuel (m + 1)

/-- The month of year `y` containing year-day `dy` (0-based). -/
def monthOfYearDay (y dy : Int) : Int := findMonthGo y dy 12 1

/-- Civil date `(year, month, day)` of day number `z` — the semantics of
Go `time.Unix(z*86400, 0).Date()` in UTC. -/
def civilFromDays (z : Int) : Int × Int × Int :=
  let y := yearOfDay z
  let dy := z - jan1 y
  let m := monthOfYearDay y dy
  (y, m, dy - daysBeforeMonth y m + 1)

/-- Calendar day (days since epoch) containing Unix second `sec`. -/
def dayOfSec (sec : Int) : Int := sec / 86400

/-- The civil date of `time.Unix(sec, 0)` in UTC. -/
def civilOfSec (sec : Int) : Int × Int × Int := civilFromDays (dayOfSec sec)

/-- Embeds `time.Date(t.Year(), t.Month(), 1, 0, 0, 0, 0, UTC).Unix()` for
`t = time.Unix(sec, 0)`: the first instant of the calendar month
containing `sec`. -/
def monthStartSec (sec : Int) : Int :=
  let c := civilOfSec sec
  86400 * daysFromCivil c.1 c.2.1 1

/-- Embeds `t.AddDate(0, 1, 0).Unix()` for `t = time.Unix(sec, 0)`: same day of
month and time of day, one month later, with the Go date normalization
(month 13 rolls into January; a day-of-month overflow rolls into the
following month, exactly as Go normalizes `Date`). -/
def addMonthGo (sec : Int) : Int :=
  let c := civilOfSec sec
  let y2 := if c.2.1 = 12 then c.1 + 1 else c.1
  let m2 := if c.2.1 = 12 then 1 else c.2.1 + 1
  86400 * (daysFromCivil y2 m2 1 + (c.2.2 - 1)) + sec % 86400

/-- A Unix second value that is the first instant of some calendar month. -/
def IsMonthStart (sec : Int) : Prop :=
  ∃ y m, 1 ≤ m ∧ m ≤ 12 ∧ sec = 86400 * daysFromCivil y m 1

/-- The month-walking loop of `splitTimePeriodByMonth` (lines 306–324):
while `currentMonth` is before `toTime`, emit
`[currentMonth, min(nextMonth, tsTo))` in milliseconds and step to the next
month, breaking once the next month reaches `tsTo`.  The fuel only bounds
the recursion depth and is chosen large enough at the call site (each
iteration advances `currentMonth` by at least 28 days). -/
def monthLoopGo (toSec tsTo : Int) : Nat → Int → List timePeriod
  | 0, _ => []
  | fuel+1, c =>
    if c < toSec then
      let n := addMonthGo c
      let periodEnd := if n * 1000 > tsTo then tsTo else n * 1000
      ⟨c * 1000, periodEnd⟩ ::
        (if n * 1000 ≥ tsTo then [] else monthLoopGo toSec tsTo fuel n)
    else []

/-- The function `splitTimePeriodByMonth` from `cmd/weatherservice`: splits
`[tsFrom, tsTo)` (epoch milliseconds) into calendar-month windows.  The
bounds are first truncated to seconds (`time.Unix(ts/1000, 0)`); if the
start does not fall on the first day of a month, a partial first window is
emitted up to the end of that month (clipped at `tsTo`); the loop then
walks whole months. -/
def splitTimePeriodByMonth (tsFrom tsTo : Int) : List timePeriod :=
  let fromSec := goDiv tsFrom 1000
  let toSec := goDiv tsTo 1000
  let currentMonth := monthStartSec fromSec
  let fuel := (toSec - currentMonth).toNat + 1
  if 1 < (civilOfSec fromSec).2.2 then
    let nextMonth := addMonthGo currentMonth
    let periodEnd := min (nextMonth * 1000) tsTo
    ⟨tsFrom, periodEnd⟩ :: monthLoopGo toSec tsTo fuel nextMonth
  else monthLoopGo toSec tsTo fuel currentMonth

/-- The pure planning skeleton of `processDevice`: the partition of sensors
into the new and existing groups and, for each non-empty group, the window
list that is requested for the whole group (one shared `GetTelemetry` call
per window, lines 172–239; the per-window fetch/store effects are elided). -/
structure DevicePlan where
  newSensors : List String
  newPeriods : List timePeriod
  existingSensors : List String
  existingPeriods : List timePeriod
deriving DecidableEq, Repr

/-- The plan of `processDevice`: new sensors get the 365-day monthly backfill
(`oneYearAgo = now - 365*24*60*60*1000`), existing sensors get the windows
derived from the minimum watermark. -/
def processDevicePlan (now : Int) (rs : List (String × Except Unit Int)) : DevicePlan :=
  let acc := scanSensors now rs
  let tsFrom := computeTsFrom now acc.minTsFrom
  { newSensors := acc.newSensors
    newPeriods := if acc.newSensors.isEmpty then []
      else splitTimePeriodByMonth (now - 31536000000) now
    existingSensors := acc.existingSensors
    existingPeriods := if acc.existingSensors.isEmpty then []
      else planExistingPeriods now tsFrom }

/-- The dynamically-typed value (`interface{}`) carried by a telemetry
point: one of the Go numeric types, a string, or nil.  `float64`/`float32`
payloads are only compared against a literal and copied, never computed
with, so `Rat` is an exact stand-in. -/
inductive GoValue where
  | vfloat64 (x : Rat)
  | vfloat32 (x : Rat)
  | vint (n : Int)
  | vint64 (n : Int)
  | vstring (s : String)
  | vnull
deriving DecidableEq, Repr

/-- The struct `TelemetryPoint` of `pkg/api`: a timestamp and a dynamically typed
value. -/
structure TelemetryPoint where
  ts : Int
  value : GoValue
deriving DecidableEq, Repr

/-- The type-switch of `StoreTelemetry` (lines 212–226): values of type
`float64`, `float32`, `int`, `int64` convert to the stored `float64`;
anything else is skipped.  (The Go `int64 → float64` conversion rounds above
2^53; the conversion itself is not the subject of any claim, so it is
embedded exactly.) -/
def numericOf : GoValue → Option Rat
  | .vfloat64 x => some x
  | .vfloat32 x => some x
  | .vint n => some (n : Rat)
  | .vint64 n => some (n : Rat)
  | .vstring _ => none
  | .vnull => none

/-- One row of the `Telemetry` table. -/
structure Row where
  stationId : String
  sensorKey : String
  timestamp : Int
  dateValue : Int
  value : Rat
deriving DecidableEq, Repr

/-- The natural key of a telemetry row (the `UNIQUE(StationID, SensorKey,
Timestamp)` constraint). -/
def rowKey (r : Row) : String × String × Int := (r.stationId, r.sensorKey, r.timestamp)

/-- The per-point statement of `StoreTelemetry` (lines 187–199): insert the
row if no row with the same key exists, else update the `Value` of that row
(only the value — `DateValue` is not touched by the `UPDATE`). -/
def upsertPoint (store : List Row) (stationId sensorKey : String) (ts : Int)
    (v : Rat) : List Row :=
  if store.any (fun r => rowKey r = (stationId, sensorKey, ts)) then
    store.map (fun r => if rowKey r = (stationId, sensorKey, ts)
      then { r with value := v } else r)
  else store ++ [⟨stationId, sensorKey, ts, goDiv ts 1000, v⟩]

/-- The inner loop of `StoreTelemetry` over the points of one sensor: non-numeric
values are skipped (`continue`), numeric ones are upserted. -/
def storePoints (deviceID sensorKey : String) (store : List Row)
    (points : List TelemetryPoint) : List Row :=
  points.foldl (fun s p =>
    match numericOf p.value with
    | none => s
    | some v => upsertPoint s deviceID sensorKey p.ts v) store

/-- The method `StoreTelemetry` of `pkg/database`: upsert every numeric point of the
batch inside one transaction.  The Go map over sensor keys is embedded as an
association list; the properties proved below hold for any iteration
order. -/
def StoreTelemetry (deviceID : String) (data : List (String × List TelemetryPoint))
    (store : List Row) : List Row :=
  data.foldl (fun s e => storePoints deviceID e.1 s e.2) store

/-- One key/value pair fed to the upsert statement. -/
def upsertKV (store : List Row) (kv : (String × String × Int) × Rat) : List Row :=
  upsertPoint store kv.1.1 kv.1.2.1 kv.1.2.2 kv.2

/-- Folding the upsert statement over a list of key/value pairs. -/
def runKVs (store : List Row) (l : List ((String × String × Int) × Rat)) : List Row :=
  l.foldl upsertKV store

/-- The key/value pairs produced by the point list of one sensor (non-numeric
values dropped). -/
def pointKVs (deviceID sensorKey : String) (points : List TelemetryPoint) :
    List ((String × String × Int) × Rat) :=
  points.filterMap (fun p => (numericOf p.value).map
    (fun v => ((deviceID, sensorKey, p.ts), v)))

/-- The key/value pairs of a whole batch. -/
def batchKVs (deviceID : String) (data : List (String × List TelemetryPoint)) :
    List ((String × String × Int) × Rat) :=
  (data.map (fun e => pointKVs deviceID e.1 e.2)).flatten

/-- The last value written for key `k` by the pair list `l`, if any. -/
def lastVal (l : List ((String × String × Int) × Rat)) (k : String × String × Int) :
    Option Rat :=
  l.foldl (fun acc kv => if kv.1 = k then some kv.2 else acc) none

/-- The batch with non-numeric points removed. -/
def numericFilterBatch (data : List (String × List TelemetryPoint)) :
    List (String × List TelemetryPoint) :=
  data.map (fun e => (e.1, e.2.filter (fun p => (numericOf p.value).isSome)))

/-- The fields of `Device` (`pkg/api`) that the sync uses. -/
structure Device where
  id : String
  name : String
  label : String
  latitude : Rat
  longitude : Rat
deriving DecidableEq, Repr

/-- The struct `TelemetryData` of `pkg/api`: one record of the `/telemetry` response.
`dbl_v` is a `float64` (embedded as `Rat`: it is only compared against the
literal `0` and copied); `str_v` is a string or JSON null. -/
structure TelemetryData where
  entityId : String
  key : String
  ts : Int
  dblV : Rat
  strV : Option String
deriving DecidableEq, Repr

/-- The reaction of the remote side to one data-fetching POST: a transport or
decode failure, or a decoded response with a status and payload. -/
inductive FetchOutcome (α : Type) where
  | transport
  | resp (status : String) (data : α)

/-- One `w.Login()` call against the login-outcome stream of the environment:
a failure is surfaced, a success consumes the new session id and continues
with `k`; either way one authentication attempt is counted.  An exhausted
stream is treated as a failing login. -/
def loginStep {α : Type} (k : List (Except Unit String) → Except Unit α × Nat) :
    List (Except Unit String) → Except Unit α × Nat
  | [] => (.error (), 1)
  | .error _ :: _ => (.error (), 1)
  | .ok _ :: ls =>
    let r := k ls
    (r.1, r.2 + 1)

/-- The retry skeleton shared verbatim by `GetDevices` (lines 289–296) and
`GetTelemetry` (lines 337–344): perform the POST; on transport failure
return the error; on status `"OK"` return the payload; on any other status
re-login and recursively retry the same call.  The second component counts
the authentication attempts made.  Each attempt consumes one entry of the
response stream of the environment; an exhausted stream is a transport
failure. -/
def fetchLoopGo {α : Type} : List (FetchOutcome α) → List (Except Unit String) →
    Except Unit α × Nat
  | [], _ => (.error (), 0)
  | .transport :: _, _ => (.error (), 0)
  | .resp status data :: fs, logins =>
    if status = "OK" then (.ok data, 0)
    else loginStep (fetchLoopGo fs) logins

/-- The Go `if data.DblV != 0` substitution of `GetTelemetry`
(lines 353–358): use the numeric value unless it is exactly `0`, else fall
back to the string value (possibly nil). -/
def strVToValue : Option String → GoValue
  | some s => .vstring s
  | none => .vnull

def toPoint (d : TelemetryData) : TelemetryPoint :=
  { ts := d.ts, value := if d.dblV ≠ 0 then .vfloat64 d.dblV else strVToValue d.strV }

/-- Appending a point under its key (`result[data.Key] = append(...)`); the
Go map is embedded as an association list in first-insertion order. -/
def insertPointByKey (acc : List (String × List TelemetryPoint)) (k : String)
    (pt : TelemetryPoint) : List (String × List TelemetryPoint) :=
  if acc.any (fun e => e.1 = k) then
    acc.map (fun e => if e.1 = k then (e.1, e.2 ++ [pt]) else e)
  else acc ++ [(k, [pt])]

/-- The response transformation of `GetTelemetry` (lines 347–362). -/
def groupTelemetry (ds : List TelemetryData) : List (String × List TelemetryPoint) :=
  ds.foldl (fun acc d => insertPointByKey acc d.key (toPoint d)) []

/-- The method `GetTelemetry` of `pkg/api` against an environment: initial login when
no session exists, then the fetch/re-login loop, then the grouping
transformation on success. -/
def GetTelemetryModel (sid : String) (fetches : List (FetchOutcome (List TelemetryData)))
    (logins : List (Except Unit String)) :
    Except Unit (List (String × List TelemetryPoint)) × Nat :=
  let r := if sid = "" then loginStep (fetchLoopGo fetches) logins
    else fetchLoopGo fetches logins
  (r.1.map groupTelemetry, r.2)

/-- The method `GetDevices` of `pkg/api` against an environment. -/
def GetDevicesModel (sid : String) (fetches : List (FetchOutcome (List Device)))
    (logins : List (Except Unit String)) : Except Unit (List Device) × Nat :=
  if sid = "" then loginStep (fetchLoopGo fetches) logins
  else fetchLoopGo fetches logins

theorem isChain_le {lo hi : Int} : ∀ {ps : List timePeriod}, isChain lo ps hi → lo ≤ hi := by
  intro ps
  induction ps generalizing lo with
  | nil => intro h; exact le_of_eq h
  | cons p ps ih =>
    intro h
    obtain ⟨h1, h2, h3⟩ := h
    have := ih h3
    omega

theorem isChain_mem_bounds {lo hi : Int} :
    ∀ {ps : List timePeriod}, isChain lo ps hi →
      ∀ p ∈ ps, lo ≤ p.fromMs ∧ p.fromMs < p.toMs ∧ p.toMs ≤ hi := by
  intro ps
  induction ps generalizing lo with
  | nil => intro _ p hp; cases hp
  | cons q ps ih =>
    intro h p hp
    obtain ⟨h1, h2, h3⟩ := h
    rcases List.mem_cons.mp hp with rfl | hp
    · exact ⟨le_of_eq h1.symm, h2, isChain_le h3⟩
    · have := ih h3 p hp
      omega

theorem isChain_pairwise {lo hi : Int} :
    ∀ {ps : List timePeriod}, isChain lo ps hi →
      ps.Pairwise (fun p q => p.toMs ≤ q.fromMs) := by
  intro ps
  induction ps generalizing lo with
  | nil => intro _; exact List.Pairwise.nil
  | cons q ps ih =>
    intro h
    obtain ⟨h1, h2, h3⟩ := h
    refine List.Pairwise.cons ?_ (ih h3)
    intro p hp
    exact (isChain_mem_bounds h3 p hp).1

theorem isChain_last_toMs {lo hi : Int} :
    ∀ {ps : List timePeriod}, isChain lo ps hi → ps ≠ [] →
      (ps.getLast?.map timePeriod.toMs) = some hi := by
  intro ps
  induction ps generalizing lo with
  | nil => intro _ h; exact absurd rfl h
  | cons q ps ih =>
    intro h _
    obtain ⟨h1, h2, h3⟩ := h
    cases ps with
    | nil => simp [List.getLast?]; cases h3; rfl
    | cons r ps => simpa [List.getLast?_cons_cons] using ih h3 (by simp)

theorem splitDaysGo_nil (tsTo intervalMs : Int) :
    ∀ (fuel : Nat) (current : Int), ¬ current < tsTo →
      splitDaysGo tsTo intervalMs fuel current = [] := by
  intro fuel current h
  cases fuel <;> simp [splitDaysGo, h]

/-- Full specification of the 30-day splitting loop: given positive interval
and sufficient fuel, the produced windows form a chain covering
`[current, tsTo)` exactly, no window is longer than `intervalMs`, and every
window except possibly the last is exactly `intervalMs` long. -/
theorem splitDaysGo_spec (tsTo intervalMs : Int) (hiv : 0 < intervalMs) :
    ∀ (fuel : Nat) (current : Int), current < tsTo → (tsTo - current).toNat ≤ fuel →
      isChain current (splitDaysGo tsTo intervalMs fuel current) tsTo ∧
      (∀ p ∈ splitDaysGo tsTo intervalMs fuel current, p.toMs - p.fromMs ≤ intervalMs) ∧
      (∀ i, i + 1 < (splitDaysGo tsTo intervalMs fuel current).length →
        ((splitDaysGo tsTo intervalMs fuel current).getD i ⟨0, 0⟩).toMs
          - ((splitDaysGo tsTo intervalMs fuel current).getD i ⟨0, 0⟩).fromMs = intervalMs) := by
  intro fuel
  induction fuel with
  | zero => intro current h hf; omega
  | succ fuel ih =>
    intro current h hf
    simp only [splitDaysGo, if_pos h]
    by_cases hclip : current + intervalMs > tsTo
    · simp only [if_pos hclip]
      rw [splitDaysGo_nil tsTo intervalMs fuel tsTo (by omega)]
      refine ⟨⟨rfl, show current < tsTo by omega, rfl⟩, ?_, ?_⟩
      · intro p hp
        rcases List.mem_singleton.mp hp with rfl
        simp; omega
      · intro i hi
        simp at hi
    · simp only [if_neg hclip]
      by_cases hend : current + intervalMs < tsTo
      · obtain ⟨ihc, ihs, ihi⟩ := ih (current + intervalMs) hend (by omega)
        refine ⟨⟨rfl, show current < current + intervalMs by omega, ihc⟩, ?_, ?_⟩
        · intro p hp
          rcases List.mem_cons.mp hp with rfl | hp
          · simp
          · exact ihs p hp
        · intro i hi
          cases i with
          | zero => simp
          | succ j =>
            simp only [List.getD_cons_succ]
            exact ihi j (by simpa using hi)
      · have heq : current + intervalMs = tsTo := by omega
        rw [splitDaysGo_nil tsTo intervalMs fuel (current + intervalMs) (by omega)]
        refine ⟨⟨rfl, show current < current + intervalMs by omega, heq⟩, ?_, ?_⟩
        · intro p hp
          rcases List.mem_singleton.mp hp with rfl
          simp
        · intro i hi
          simp at hi

/-- C4: with a watermark `w` (existing sensors have `0 < w`) at most 30 days
before `now`, the planner requests exactly one window `[w+1, now)`. -/
theorem plannerExisting_single_window (w now : Int) (hw : 0 < w) (hlt : w < now)
    (h30 : now - w ≤ 2592000000) :
    plannerExisting now w = [⟨w + 1, now⟩] := by
  have hcf : computeTsFrom now w = w + 1 := by
    unfold computeTsFrom
    rw [if_pos ⟨hlt, hw⟩]
  unfold plannerExisting
  rw [hcf]
  unfold planExistingPeriods
  rw [if_neg (by omega)]

/-- Witness for `plannerExisting_single_window` at the spec scenario
`watermark = T`, `now = T + 10 minutes`. -/
theorem plannerExisting_single_window_witness :
    plannerExisting 1700000600000 1700000000000 = [⟨1700000000001, 1700000600000⟩] :=
  plannerExisting_single_window 1700000000000 1700000600000 (by decide) (by decide)
    (by decide)

/-- C5: with a watermark more than 30 days before `now`, the planner returns
contiguous, non-overlapping, non-empty windows covering `[w+1, now)` exactly;
no window exceeds 30 days and all but possibly the last are exactly 30 days. -/
theorem plannerExisting_monthly_split (w now : Int) (hw : 0 < w)
    (h30 : 2592000000 < now - w) :
    isChain (w + 1) (plannerExisting now w) now ∧
    (plannerExisting now w).Pairwise (fun p q => p.toMs ≤ q.fromMs) ∧
    (∀ p ∈ plannerExisting now w, p.toMs - p.fromMs ≤ 2592000000) ∧
    (∀ i, i + 1 < (plannerExisting now w).length →
      ((plannerExisting now w).getD i ⟨0, 0⟩).toMs
        - ((plannerExisting now w).getD i ⟨0, 0⟩).fromMs = 2592000000) := by
  have hcf : computeTsFrom now w = w + 1 := by
    unfold computeTsFrom
    rw [if_pos ⟨by omega, hw⟩]
  unfold plannerExisting
  rw [hcf]
  unfold planExistingPeriods
  by_cases hsplit : w + 1 < now - 2592000000
  · rw [if_pos hsplit]
    unfold splitTimePeriodByDays
    have hs := splitDaysGo_spec now (30 * 86400000) (by norm_num)
      (now - (w + 1)).toNat (w + 1) (by omega) (by omega)
    norm_num at hs ⊢
    obtain ⟨hc, hsp, hidx⟩ := hs
    exact ⟨hc, isChain_pairwise hc, hsp, hidx⟩
  · rw [if_neg hsplit]
    refine ⟨⟨rfl, show w + 1 < now by omega, rfl⟩, by simp, ?_, ?_⟩
    · intro p hp
      rcases List.mem_singleton.mp hp with rfl
      simp; omega
    · intro i hi
      simp at hi

/-- Witness for `plannerExisting_monthly_split`: watermark 100 days before
`now`, producing four windows. -/
theorem plannerExisting_monthly_split_witness :
    isChain (1691360000001) (plannerExisting 1700000000000 1691360000000) 1700000000000 ∧
    (plannerExisting 1700000000000 1691360000000).Pairwise (fun p q => p.toMs ≤ q.fromMs) ∧
    (∀ p ∈ plannerExisting 1700000000000 1691360000000,
      p.toMs - p.fromMs ≤ 2592000000) ∧
    (∀ i, i + 1 < (plannerExisting 1700000000000 1691360000000).length →
      ((plannerExisting 1700000000000 1691360000000).getD i ⟨0, 0⟩).toMs
        - ((plannerExisting 1700000000000 1691360000000).getD i ⟨0, 0⟩).fromMs
          = 2592000000) :=
  plannerExisting_monthly_split 1691360000000 1700000000000 (by decide) (by decide)

/-- C3 counterexample: for `watermark = now` (a malformed input,
`watermark ≥ now`) the planner does NOT return an empty window sequence — it
returns the 15-minute fallback window. -/
theorem plannerExisting_ge_now_not_empty :
    plannerExisting 1700000000000 1700000000000 ≠ [] := by
  decide

/-- C3 amended: for `watermark ≥ now` the planner returns the single
15-minute fallback window `[now - 900000, now)` — a positive-length window,
never a negative-length one — rather than an empty sequence. -/
theorem plannerExisting_ge_now (w now : Int) (h : now ≤ w) :
    plannerExisting now w = [⟨now - 900000, now⟩] ∧
    ∀ p ∈ plannerExisting now w, p.fromMs < p.toMs := by
  have hcf : computeTsFrom now w = now - 900000 := by
    unfold computeTsFrom
    rw [if_neg (by omega)]
  have hpl : plannerExisting now w = [⟨now - 900000, now⟩] := by
    unfold plannerExisting
    rw [hcf]
    unfold planExistingPeriods
    rw [if_neg (by omega)]
  refine ⟨hpl, ?_⟩
  rw [hpl]
  intro p hp
  rcases List.mem_singleton.mp hp with rfl
  simp

/-- Witness for `plannerExisting_ge_now` at `watermark = now`. -/
theorem plannerExisting_ge_now_witness :
    plannerExisting 1700000000000 1700000000000
        = [⟨1699999100000, 1700000000000⟩] ∧
    ∀ p ∈ plannerExisting 1700000000000 1700000000000, p.fromMs < p.toMs :=
  plannerExisting_ge_now 1700000000000 1700000000000 (by decide)

theorem scanStep_characterization (acc : ScanAcc) (e : String × Except Unit Int) :
    (scanStep acc e).newSensors = acc.newSensors ++ (newKeyOf e).toList ∧
    (scanStep acc e).existingSensors = acc.existingSensors ++ (existingKeyOf e).toList ∧
    (scanStep acc e).sensorLastTs = acc.sensorLastTs ++ (lastTsPairOf e).toList ∧
    (scanStep acc e).minTsFrom
      = (watermarkOf e).elim acc.minTsFrom
          (fun w => if w < acc.minTsFrom then w else acc.minTsFrom) := by
  obtain ⟨k, r⟩ := e
  cases r with
  | error u => simp [scanStep, newKeyOf, existingKeyOf, watermarkOf, lastTsPairOf]
  | ok lastTs =>
    by_cases h : 0 < lastTs <;>
      simp [scanStep, newKeyOf, existingKeyOf, watermarkOf, lastTsPairOf, h]

/-- The scan loop in closed form: each component of the accumulator is a
`filterMap` of the entry list (and `minTsFrom` a fold of the watermarks). -/
theorem scanSensors_characterization (now : Int) (rs : List (String × Except Unit Int)) :
    (scanSensors now rs).newSensors = rs.filterMap newKeyOf ∧
    (scanSensors now rs).existingSensors = rs.filterMap existingKeyOf ∧
    (scanSensors now rs).sensorLastTs = rs.filterMap lastTsPairOf ∧
    (scanSensors now rs).minTsFrom
      = (rs.filterMap watermarkOf).foldl (fun a w => if w < a then w else a) now := by
  suffices h : ∀ (rs : List (String × Except Unit Int)) (acc : ScanAcc),
      (rs.foldl scanStep acc).newSensors = acc.newSensors ++ rs.filterMap newKeyOf ∧
      (rs.foldl scanStep acc).existingSensors
        = acc.existingSensors ++ rs.filterMap existingKeyOf ∧
      (rs.foldl scanStep acc).sensorLastTs = acc.sensorLastTs ++ rs.filterMap lastTsPairOf ∧
      (rs.foldl scanStep acc).minTsFrom
        = (rs.filterMap watermarkOf).foldl (fun a w => if w < a then w else a) acc.minTsFrom by
    have := h rs ⟨[], [], [], now⟩
    simpa [scanSensors] using this
  intro rs
  induction rs with
  | nil => intro acc; simp
  | cons e rs ih =>
    intro acc
    obtain ⟨c1, c2, c3, c4⟩ := scanStep_characterization acc e
    obtain ⟨i1, i2, i3, i4⟩ := ih (scanStep acc e)
    simp only [List.foldl_cons, List.filterMap_cons]
    refine ⟨?_, ?_, ?_, ?_⟩
    · rw [i1, c1]
      cases newKeyOf e <;> simp
    · rw [i2, c2]
      cases existingKeyOf e <;> simp
    · rw [i3, c3]
      cases lastTsPairOf e <;> simp
    · rw [i4, c4]
      cases hw : watermarkOf e <;> simp

theorem isLeap_iff (y : Int) :
    isLeap y = true ↔ (y % 4 = 0 ∧ (y % 100 ≠ 0 ∨ y % 400 = 0)) := by
  simp [isLeap, Bool.and_eq_true, Bool.or_eq_true]

theorem jan1_succ (y : Int) : jan1 (y + 1) = jan1 y + daysInYear y := by
  unfold jan1 daysInYear
  by_cases h : isLeap y = true
  · rw [if_pos h]
    rw [isLeap_iff] at h
    omega
  · rw [if_neg h]
    rw [isLeap_iff] at h
    push_neg at h
    by_cases h4 : y % 4 = 0
    · have := h h4
      omega
    · omega

theorem daysInYear_bounds (y : Int) : 365 ≤ daysInYear y ∧ daysInYear y ≤ 366 := by
  unfold daysInYear
  split <;> omega

theorem jan1_cycle (y q : Int) : jan1 (y + 400 * q) = jan1 y + 146097 * q := by
  unfold jan1
  have h4 : (y + 400 * q - 1) / 4 = (y - 1) / 4 + 100 * q := by omega
  have h100 : (y + 400 * q - 1) / 100 = (y - 1) / 100 + 4 * q := by omega
  have h400 : (y + 400 * q - 1) / 400 = (y - 1) / 400 + q := by omega
  rw [h4, h100, h400]
  ring

theorem monthLen_bounds (y m : Int) : 28 ≤ monthLen y m ∧ monthLen y m ≤ 31 := by
  unfold monthLen
  split
  · split <;> omega
  · split <;> omega

theorem daysBeforeMonth_one (y : Int) : daysBeforeMonth y 1 = 0 := by
  simp [daysBeforeMonth]

theorem daysBeforeMonth_succ (y m : Int) (h1 : 1 ≤ m) (h2 : m ≤ 12) :
    daysBeforeMonth y (m + 1) = daysBeforeMonth y m + monthLen y m := by
  interval_cases m <;>
    · simp only [daysBeforeMonth, monthLen]
      cases isLeap y <;> norm_num

theorem daysBeforeMonth_year (y : Int) : daysBeforeMonth y 13 = daysInYear y := by
  simp only [daysBeforeMonth, daysInYear]
  cases isLeap y <;> norm_num

theorem daysBeforeMonth_nonneg (y m : Int) (h1 : 1 ≤ m) (h2 : m ≤ 13) :
    0 ≤ daysBeforeMonth y m := by
  interval_cases m <;>
    · simp only [daysBeforeMonth]
      cases isLeap y <;> norm_num

theorem daysBeforeMonth_mono (y : Int) (m1 m2 : Int) (h1 : 1 ≤ m1) (h12 : m1 ≤ m2)
    (h2 : m2 ≤ 13) : daysBeforeMonth y m1 ≤ daysBeforeMonth y m2 := by
  have key : ∀ n : Nat, ∀ a : Int, 1 ≤ a → a + n ≤ 13 →
      daysBeforeMonth y a ≤ daysBeforeMonth y (a + n) := by
    intro n
    induction n with
    | zero => intro a _ _; simp
    | succ k ih =>
      intro a ha hak
      have hstep := daysBeforeMonth_succ y a ha (by omega)
      have hrest := ih (a + 1) (by omega) (by omega)
      have hlen := monthLen_bounds y a
      have : (a + 1 + (k : Int)) = a + ((k : Int) + 1) := by ring
      rw [this] at hrest
      push_cast
      omega
  have hn := key (m2 - m1).toNat m1 h1 (by omega)
  have : m1 + ((m2 - m1).toNat : Int) = m2 := by omega
  rwa [this] at hn

theorem jan1_mono (a b : Int) (h : a ≤ b) : jan1 a ≤ jan1 b := by
  have key : ∀ n : Nat, jan1 a ≤ jan1 (a + n) := by
    intro n
    induction n with
    | zero => simp
    | succ k ih =>
      have hs := jan1_succ (a + k)
      have hd := daysInYear_bounds (a + k)
      push_cast
      have harg : a + ((k : Int) + 1) = a + (k : Int) + 1 := by ring
      rw [harg]
      omega
  have hn := key (b - a).toNat
  have : a + ((b - a).toNat : Int) = b := by omega
  rwa [this] at hn

theorem findYearGo_correct (z : Int) :
    ∀ (fuel : Nat) (y : Int), jan1 y ≤ z → z < jan1 (y + fuel) →
      jan1 (findYearGo z fuel y) ≤ z ∧ z < jan1 (findYearGo z fuel y + 1) := by
  intro fuel
  induction fuel with
  | zero =>
    intro y h1 h2
    simp only [Nat.cast_zero, add_zero] at h2
    omega
  | succ fuel ih =>
    intro y h1 h2
    simp only [findYearGo]
    by_cases hle : z < jan1 (y + 1)
    · rw [if_pos hle]
      exact ⟨h1, hle⟩
    · rw [if_neg hle]
      refine ih (y + 1) (by omega) ?_
      have : (y + 1) + (fuel : Int) = y + ((fuel : Int) + 1) := by ring
      rw [this]
      push_cast at h2
      omega

theorem yearOfDay_correct (z : Int) :
    jan1 (yearOfDay z) ≤ z ∧ z < jan1 (yearOfDay z + 1) := by
  unfold yearOfDay
  set q := (z - jan1 1601) / 146097 with hq
  have hr : 0 ≤ z - jan1 1601 - 146097 * q ∧ z - jan1 1601 - 146097 * q < 146097 := by
    rw [hq]; omega
  have hstart : jan1 (1601 + 400 * q) = jan1 1601 + 146097 * q := jan1_cycle 1601 q
  have hend : jan1 (1601 + 400 * q + 400) = jan1 1601 + 146097 * q + 146097 := by
    have : 1601 + 400 * q + 400 = 1601 + 400 * (q + 1) := by ring
    rw [this, jan1_cycle]
    ring
  refine findYearGo_correct z 400 (1601 + 400 * q) (by omega) ?_
  have : (1601 + 400 * q) + ((400 : Nat) : Int) = 1601 + 400 * q + 400 := by norm_num
  rw [this, hend]
  omega

theorem yearOfDay_unique (z y : Int) (h1 : jan1 y ≤ z) (h2 : z < jan1 (y + 1)) :
    yearOfDay z = y := by
  obtain ⟨g1, g2⟩ := yearOfDay_correct z
  by_contra hne
  rcases lt_or_gt_of_ne hne with hlt | hgt
  · have := jan1_mono (yearOfDay z + 1) y (by omega)
    omega
  · have := jan1_mono (y + 1) (yearOfDay z) (by omega)
    omega

theorem findMonthGo_correct (y dy : Int) (hdy : dy < daysBeforeMonth y 13) :
    ∀ (fuel : Nat) (m : Int), 1 ≤ m → m ≤ 12 → daysBeforeMonth y m ≤ dy →
      (12 : Int) - m < fuel →
      1 ≤ findMonthGo y dy fuel m ∧ findMonthGo y dy fuel m ≤ 12 ∧
      daysBeforeMonth y (findMonthGo y dy fuel m) ≤ dy ∧
      dy < daysBeforeMonth y (findMonthGo y dy fuel m + 1) := by
  intro fuel
  induction fuel with
  | zero => intro m _ _ _ hf; omega
  | succ fuel ih =>
    intro m hm1 hm2 hmle hf
    simp only [findMonthGo]
    by_cases h12 : (12 : Int) ≤ m
    · rw [if_pos h12]
      have hm : m = 12 := by omega
      subst hm
      refine ⟨by norm_num, le_refl _, hmle, ?_⟩
      show dy < daysBeforeMonth y 13
      exact hdy
    · rw [if_neg h12]
      by_cases hnext : dy < daysBeforeMonth y (m + 1)
      · rw [if_pos hnext]
        exact ⟨hm1, hm2, hmle, hnext⟩
      · rw [if_neg hnext]
        exact ih (m + 1) (by omega) (by omega) (by omega) (by omega)

theorem monthOfYearDay_correct (y dy : Int) (h0 : 0 ≤ dy) (hdy : dy < daysInYear y) :
    1 ≤ monthOfYearDay y dy ∧ monthOfYearDay y dy ≤ 12 ∧
    daysBeforeMonth y (monthOfYearDay y dy) ≤ dy ∧
    dy < daysBeforeMonth y (monthOfYearDay y dy + 1) := by
  have h13 : dy < daysBeforeMonth y 13 := by rw [daysBeforeMonth_year]; exact hdy
  have h := findMonthGo_correct y dy h13 12 1 (by norm_num) (by norm_num)
    (by rw [daysBeforeMonth_one]; exact h0) (by norm_num)
  exact h

theorem monthOfYearDay_unique (y dy m : Int) (hm1 : 1 ≤ m) (hm2 : m ≤ 12)
    (hle : daysBeforeMonth y m ≤ dy) (hlt : dy < daysBeforeMonth y (m + 1))
    (h0 : 0 ≤ dy) (hdy : dy < daysInYear y) :
    monthOfYearDay y dy = m := by
  obtain ⟨g1, g2, g3, g4⟩ := monthOfYearDay_correct y dy h0 hdy
  by_contra hne
  rcases lt_or_gt_of_ne hne with hlt2 | hgt
  · have := daysBeforeMonth_mono y (monthOfYearDay y dy + 1) m (by omega) (by omega)
      (by omega)
    omega
  · have := daysBeforeMonth_mono y (m + 1) (monthOfYearDay y dy) (by omega) (by omega)
      (by omega)
    omega

/-- Validity and roundtrip of the day-number/civil-date conversion. -/
theorem civilFromDays_spec (z : Int) :
    1 ≤ (civilFromDays z).2.1 ∧ (civilFromDays z).2.1 ≤ 12 ∧
    1 ≤ (civilFromDays z).2.2 ∧
    (civilFromDays z).2.2 ≤ monthLen (civilFromDays z).1 (civilFromDays z).2.1 ∧
    daysFromCivil (civilFromDays z).1 (civilFromDays z).2.1 (civilFromDays z).2.2 = z := by
  obtain ⟨hy1, hy2⟩ := yearOfDay_correct z
  set y := yearOfDay z with hy
  have hdy1 : 0 ≤ z - jan1 y := by omega
  have hdy2 : z - jan1 y < daysInYear y := by
    have := jan1_succ y
    omega
  obtain ⟨hm1, hm2, hm3, hm4⟩ := monthOfYearDay_correct y (z - jan1 y) hdy1 hdy2
  set m := monthOfYearDay y (z - jan1 y) with hm
  have hstep := daysBeforeMonth_succ y m hm1 hm2
  simp only [civilFromDays, ← hy, ← hm]
  refine ⟨hm1, hm2, by omega, by omega, ?_⟩
  unfold daysFromCivil
  ring

/-- The civil date of the day number of a valid civil date is itself. -/
theorem civilFromDays_of_daysFromCivil (y m d : Int) (hm1 : 1 ≤ m) (hm2 : m ≤ 12)
    (hd1 : 1 ≤ d) (hd2 : d ≤ monthLen y m) :
    civilFromDays (daysFromCivil y m d) = (y, m, d) := by
  set z := daysFromCivil y m d with hz
  have hbm0 : 0 ≤ daysBeforeMonth y m := daysBeforeMonth_nonneg y m hm1 (by omega)
  have hstep := daysBeforeMonth_succ y m hm1 hm2
  have hbm13 : daysBeforeMonth y (m + 1) ≤ daysBeforeMonth y 13 :=
    daysBeforeMonth_mono y (m + 1) 13 (by omega) (by omega) (by omega)
  have hyr := daysBeforeMonth_year y
  have hzy1 : jan1 y ≤ z := by
    rw [hz]; unfold daysFromCivil; omega
  have hzy2 : z < jan1 (y + 1) := by
    rw [hz]; unfold daysFromCivil
    have := jan1_succ y
    omega
  have hyeq : yearOfDay z = y := yearOfDay_unique z y hzy1 hzy2
  have hdyval : z - jan1 y = daysBeforeMonth y m + (d - 1) := by
    rw [hz]; unfold daysFromCivil; ring
  have hmeq : monthOfYearDay y (z - jan1 y) = m := by
    refine monthOfYearDay_unique y (z - jan1 y) m hm1 hm2 (by omega) (by omega)
      (by omega) (by omega)
  simp only [civilFromDays, hyeq, hmeq]
  refine Prod.ext rfl (Prod.ext rfl ?_)
  simp only
  omega

theorem daysFromCivil_day_shift (y m d : Int) :
    daysFromCivil y m d = daysFromCivil y m 1 + (d - 1) := by
  unfold daysFromCivil
  ring

/-- The day number of the start of the next month: one month length later. -/
theorem daysFromCivil_next_month (y m : Int) (hm1 : 1 ≤ m) (hm2 : m ≤ 12) :
    daysFromCivil (if m = 12 then y + 1 else y) (if m = 12 then 1 else m + 1) 1
      = daysFromCivil y m 1 + monthLen y m := by
  by_cases h12 : m = 12
  · subst h12
    rw [show (if (12 : Int) = 12 then y + 1 else y) = y + 1 from if_pos rfl,
      show (if (12 : Int) = 12 then (1 : Int) else 12 + 1) = 1 from if_pos rfl]
    unfold daysFromCivil
    rw [daysBeforeMonth_one, jan1_succ]
    have h13 := daysBeforeMonth_year y
    have hstep := daysBeforeMonth_succ y 12 (by norm_num) (by norm_num)
    norm_num at hstep
    have hlen : monthLen y 12 = 31 := by simp [monthLen]
    omega
  · simp only [if_neg h12]
    unfold daysFromCivil
    have hstep := daysBeforeMonth_succ y m hm1 (by omega)
    omega

/-- Applying `AddDate(0, 1, 0)` advances a time by exactly the length of the calendar
month containing it. -/
theorem addMonthGo_eq (sec : Int) :
    addMonthGo sec = sec + 86400 * monthLen (civilOfSec sec).1 (civilOfSec sec).2.1 := by
  obtain ⟨hm1, hm2, hd1, hd2, hrt⟩ := civilFromDays_spec (dayOfSec sec)
  unfold addMonthGo
  have hnext := daysFromCivil_next_month (civilOfSec sec).1 (civilOfSec sec).2.1 hm1 hm2
  have hshift := daysFromCivil_day_shift (civilOfSec sec).1 (civilOfSec sec).2.1
    (civilOfSec sec).2.2
  have hday : daysFromCivil (civilOfSec sec).1 (civilOfSec sec).2.1 (civilOfSec sec).2.2
      = dayOfSec sec := hrt
  have hsec : 86400 * dayOfSec sec + sec % 86400 = sec := by
    unfold dayOfSec
    omega
  simp only
  rw [hnext]
  unfold dayOfSec at hday hsec
  omega

theorem monthStartSec_le (sec : Int) : monthStartSec sec ≤ sec := by
  obtain ⟨hm1, hm2, hd1, hd2, hrt⟩ := civilFromDays_spec (dayOfSec sec)
  unfold monthStartSec
  have hshift := daysFromCivil_day_shift (civilOfSec sec).1 (civilOfSec sec).2.1
    (civilOfSec sec).2.2
  have hday : daysFromCivil (civilOfSec sec).1 (civilOfSec sec).2.1 (civilOfSec sec).2.2
      = dayOfSec sec := hrt
  have : 86400 * dayOfSec sec ≤ sec := by unfold dayOfSec; omega
  simp only
  unfold civilOfSec at hshift hday ⊢
  omega

theorem monthStartSec_isMonthStart (sec : Int) : IsMonthStart (monthStartSec sec) := by
  obtain ⟨hm1, hm2, hd1, hd2, hrt⟩ := civilFromDays_spec (dayOfSec sec)
  exact ⟨(civilOfSec sec).1, (civilOfSec sec).2.1, hm1, hm2, rfl⟩

theorem civilOfSec_monthStart (y m : Int) (hm1 : 1 ≤ m) (hm2 : m ≤ 12) :
    civilOfSec (86400 * daysFromCivil y m 1) = (y, m, 1) := by
  unfold civilOfSec dayOfSec
  have hday : 86400 * daysFromCivil y m 1 / 86400 = daysFromCivil y m 1 := by omega
  rw [hday]
  refine civilFromDays_of_daysFromCivil y m 1 hm1 hm2 (by norm_num) ?_
  have := monthLen_bounds y m
  omega

/-- On a month start, `AddDate(0, 1, 0)` lands on the next month start. -/
theorem addMonthGo_monthStart (sec : Int) (h : IsMonthStart sec) :
    IsMonthStart (addMonthGo sec) ∧
    sec + 86400 * 28 ≤ addMonthGo sec ∧ addMonthGo sec ≤ sec + 86400 * 31 := by
  obtain ⟨y, m, hm1, hm2, rfl⟩ := h
  have hcv := civilOfSec_monthStart y m hm1 hm2
  have hlen := monthLen_bounds y m
  have heq := addMonthGo_eq (86400 * daysFromCivil y m 1)
  rw [hcv] at heq
  simp only at heq
  constructor
  · unfold addMonthGo
    rw [hcv]
    simp only
    have hmod : 86400 * daysFromCivil y m 1 % 86400 = 0 := by omega
    rw [hmod]
    by_cases h12 : m = 12
    · subst h12
      rw [show (if (12 : Int) = 12 then y + 1 else y) = y + 1 from if_pos rfl,
        show (if (12 : Int) = 12 then (1 : Int) else 12 + 1) = 1 from if_pos rfl]
      exact ⟨y + 1, 1, by norm_num, by norm_num, by ring⟩
    · simp only [if_neg h12]
      exact ⟨y, m + 1, by omega, by omega, by ring⟩
  · rw [heq] at *
    omega

theorem monthLoopGo_nil (toSec tsTo : Int) (fuel : Nat) (c : Int) (h : ¬ c < toSec) :
    monthLoopGo toSec tsTo fuel c = [] := by
  cases fuel <;> simp [monthLoopGo, h]

/-- Specification of the month-walking loop: starting from a month start
`c` before `toSec` (with `tsTo = 1000 * toSec` and sufficient fuel), the
emitted windows form a chain covering `[c*1000, tsTo)` exactly, and every
window starts at a month start and ends at the following month start,
clipped at `tsTo`. -/
theorem monthLoopGo_spec (toSec tsTo : Int) (hts : tsTo = 1000 * toSec) :
    ∀ (fuel : Nat) (c : Int), IsMonthStart c → c < toSec → (toSec - c).toNat < fuel →
      isChain (c * 1000) (monthLoopGo toSec tsTo fuel c) tsTo ∧
      ∀ p ∈ monthLoopGo toSec tsTo fuel c, ∃ u, IsMonthStart u ∧
        p.fromMs = u * 1000 ∧ p.toMs = min (addMonthGo u * 1000) tsTo := by
  intro fuel
  induction fuel with
  | zero => intro c _ hc hf; omega
  | succ fuel ih =>
    intro c hms hc hf
    obtain ⟨hnms, hlo, hhi⟩ := addMonthGo_monthStart c hms
    simp only [monthLoopGo, if_pos hc]
    set n := addMonthGo c with hn
    have hclt : c * 1000 < tsTo := by omega
    by_cases hbig : n * 1000 > tsTo
    · rw [if_pos hbig, if_pos (by omega : n * 1000 ≥ tsTo)]
      refine ⟨⟨rfl, show c * 1000 < tsTo by omega, rfl⟩, ?_⟩
      intro p hp
      rcases List.mem_singleton.mp hp with rfl
      exact ⟨c, hms, rfl, by simp only; omega⟩
    · rw [if_neg hbig]
      by_cases heq : n * 1000 ≥ tsTo
      · have heq2 : n * 1000 = tsTo := by omega
        rw [if_pos heq]
        refine ⟨⟨rfl, show c * 1000 < n * 1000 by omega, heq2⟩, ?_⟩
        intro p hp
        rcases List.mem_singleton.mp hp with rfl
        exact ⟨c, hms, rfl, by simp only; omega⟩
      · rw [if_neg heq]
        have hnlt : n < toSec := by omega
        obtain ⟨ihc, ihw⟩ := ih n hnms hnlt (by omega)
        refine ⟨⟨rfl, show c * 1000 < n * 1000 by omega, ihc⟩, ?_⟩
        intro p hp
        rcases List.mem_cons.mp hp with rfl | hp
        · exact ⟨c, hms, rfl, by simp only; omega⟩
        · exact ihw p hp

theorem goDiv_exact (a : Int) (h : a % 1000 = 0) : 1000 * goDiv a 1000 = a := by
  have hk : a = 1000 * (a / 1000) := by omega
  unfold goDiv
  conv_lhs => rw [hk]
  rw [Int.mul_tdiv_cancel_left _ (by norm_num)]
  omega

/-- C1 (amended): for `now` on a whole second, with the backfill start
`now - 365d` falling either on day ≥ 2 of its month or exactly on a month
start, the monthly backfill windows form a chain covering exactly
`[now-365d, now)` (contiguous, non-overlapping, non-empty), are pairwise
disjoint, the first window runs from `now-365d` to the end of that calendar
month (clipped at `now`), every later window starts at a calendar-month
boundary and ends at the next boundary clipped at `now`, and every window
lies within a single calendar month. -/
theorem splitTimePeriodByMonth_backfill (now : Int) (hal : now % 1000 = 0)
    (hday : 1 < (civilOfSec (goDiv (now - 31536000000) 1000)).2.2
      ∨ monthStartSec (goDiv (now - 31536000000) 1000) = goDiv (now - 31536000000) 1000) :
    isChain (now - 31536000000) (splitTimePeriodByMonth (now - 31536000000) now) now ∧
    (splitTimePeriodByMonth (now - 31536000000) now).Pairwise
      (fun p q => p.toMs ≤ q.fromMs) ∧
    (splitTimePeriodByMonth (now - 31536000000) now).head? =
      some ⟨now - 31536000000,
        min (addMonthGo (monthStartSec (goDiv (now - 31536000000) 1000)) * 1000) now⟩ ∧
    (∀ p ∈ (splitTimePeriodByMonth (now - 31536000000) now).tail, ∃ u, IsMonthStart u ∧
      p.fromMs = u * 1000 ∧ p.toMs = min (addMonthGo u * 1000) now) ∧
    (∀ p ∈ splitTimePeriodByMonth (now - 31536000000) now, ∃ u, IsMonthStart u ∧
      u * 1000 ≤ p.fromMs ∧ p.toMs ≤ addMonthGo u * 1000) := by
  set ts := now - 31536000000 with htsdef
  have htal : ts % 1000 = 0 := by omega
  have hfrom : 1000 * goDiv ts 1000 = ts := goDiv_exact ts htal
  have hto : 1000 * goDiv now 1000 = now := goDiv_exact now hal
  set fromSec := goDiv ts 1000 with hfs
  set toSec := goDiv now 1000 with htos
  have hlt : fromSec < toSec := by omega
  set cm0 := monthStartSec fromSec with hcm
  have hcm0 : IsMonthStart cm0 := monthStartSec_isMonthStart fromSec
  have hcm0le : cm0 ≤ fromSec := monthStartSec_le fromSec
  obtain ⟨hnms0, hlo0, hhi0⟩ := addMonthGo_monthStart cm0 hcm0
  set n0 := addMonthGo cm0 with hn0
  -- `ts < n0 * 1000`: the end of the month containing the start lies
  -- strictly after the start.
  have hn0gt : fromSec < n0 := by
    obtain ⟨hm1, hm2, hd1, hd2, hrt⟩ := civilFromDays_spec (dayOfSec fromSec)
    have hco : civilFromDays (dayOfSec fromSec) = civilOfSec fromSec := rfl
    rw [hco] at hm1 hm2 hd1 hd2 hrt
    have hshift := daysFromCivil_day_shift (civilOfSec fromSec).1
      (civilOfSec fromSec).2.1 (civilOfSec fromSec).2.2
    have hcv : civilOfSec cm0 = ((civilOfSec fromSec).1, (civilOfSec fromSec).2.1, 1) := by
      rw [hcm]
      exact civilOfSec_monthStart (civilOfSec fromSec).1 (civilOfSec fromSec).2.1 hm1 hm2
    have heq0 : n0 = cm0 + 86400 * monthLen (civilOfSec fromSec).1
        (civilOfSec fromSec).2.1 := by
      rw [hn0, addMonthGo_eq cm0, hcv]
    have hcmval : cm0 = 86400 * daysFromCivil (civilOfSec fromSec).1
        (civilOfSec fromSec).2.1 1 := rfl
    have hdayval : 86400 * dayOfSec fromSec ≤ fromSec ∧
        fromSec < 86400 * (dayOfSec fromSec + 1) := by
      unfold dayOfSec
      omega
    have hrt2 : daysFromCivil (civilOfSec fromSec).1 (civilOfSec fromSec).2.1
        (civilOfSec fromSec).2.2 = dayOfSec fromSec := hrt
    omega
  have hfuel : (toSec - cm0).toNat + 1 = (toSec - cm0).toNat + 1 := rfl
  by_cases hb : 1 < (civilOfSec fromSec).2.2
  · -- partial first window branch (`fromTime.Day() > 1`)
    have hsplit : splitTimePeriodByMonth ts now
        = ⟨ts, min (n0 * 1000) now⟩
          :: monthLoopGo toSec now ((toSec - cm0).toNat + 1) n0 := by
      simp only [splitTimePeriodByMonth]
      rw [← hfs, ← htos, ← hcm, ← hn0, if_pos hb]
    by_cases hcase : n0 < toSec
    · obtain ⟨hchain, hwin⟩ := monthLoopGo_spec toSec now (by omega)
        ((toSec - cm0).toNat + 1) n0 hnms0 hcase (by omega)
      have hmin : min (n0 * 1000) now = n0 * 1000 := by
        apply min_eq_left
        omega
      have hchain2 : isChain ts (splitTimePeriodByMonth ts now) now := by
        rw [hsplit, hmin]
        exact ⟨rfl, by simp only; omega, hchain⟩
      refine ⟨hchain2, isChain_pairwise hchain2, ?_, ?_, ?_⟩
      · rw [hsplit]
        rfl
      · rw [hsplit]
        intro p hp
        exact hwin p hp
      · rw [hsplit]
        intro p hp
        rcases List.mem_cons.mp hp with rfl | hp
        · refine ⟨cm0, hcm0, by simp only; omega, by simp only; omega⟩
        · obtain ⟨u, hu, hpf, hpt⟩ := hwin p hp
          exact ⟨u, hu, le_of_eq hpf.symm, by omega⟩
    · have hnil : monthLoopGo toSec now ((toSec - cm0).toNat + 1) n0 = [] :=
        monthLoopGo_nil toSec now _ n0 hcase
      have hmin : min (n0 * 1000) now = now := by
        apply min_eq_right
        omega
      have hchain2 : isChain ts (splitTimePeriodByMonth ts now) now := by
        rw [hsplit, hnil, hmin]
        exact ⟨rfl, by simp only; omega, rfl⟩
      refine ⟨hchain2, isChain_pairwise hchain2, ?_, ?_, ?_⟩
      · rw [hsplit, hnil]
        rfl
      · rw [hsplit, hnil]
        intro p hp
        simp at hp
      · rw [hsplit, hnil]
        intro p hp
        rcases List.mem_singleton.mp hp with rfl
        refine ⟨cm0, hcm0, by simp only; omega, by simp only; omega⟩
  · -- aligned branch: the start is exactly a month start
    have hcmeq : cm0 = fromSec := by
      rcases hday with h | h
      · exact absurd h hb
      · exact h
    have hsplit : splitTimePeriodByMonth ts now
        = monthLoopGo toSec now ((toSec - cm0).toNat + 1) cm0 := by
      simp only [splitTimePeriodByMonth]
      rw [← hfs, ← htos, ← hcm, if_neg hb]
    obtain ⟨hchain, hwin⟩ := monthLoopGo_spec toSec now (by omega)
      ((toSec - cm0).toNat + 1) cm0 hcm0 (by omega) (by omega)
    have hts1000 : cm0 * 1000 = ts := by omega
    rw [hts1000] at hchain
    have hchain2 : isChain ts (splitTimePeriodByMonth ts now) now := by
      rw [hsplit]; exact hchain
    have hne : splitTimePeriodByMonth ts now ≠ [] := by
      intro hcon
      rw [hcon] at hchain2
      have : ts = now := hchain2
      omega
    refine ⟨hchain2, isChain_pairwise hchain2, ?_, ?_, ?_⟩
    · rw [hsplit] at hne ⊢
      cases hl : monthLoopGo toSec now ((toSec - cm0).toNat + 1) cm0 with
      | nil => exact absurd hl hne
      | cons p rest =>
        rw [hl] at hchain
        obtain ⟨hpf, hplt, _⟩ := hchain
        have hpmem : p ∈ monthLoopGo toSec now ((toSec - cm0).toNat + 1) cm0 := by
          rw [hl]; exact List.mem_cons_self p rest
        obtain ⟨u, hu, hupf, hupt⟩ := hwin p hpmem
        have hueq : u = cm0 := by omega
        rw [hueq] at hupt
        simp only [List.head?_cons]
        congr 1
        cases p
        simp only at hpf hupt
        rw [hpf, hupt, hn0]
    · rw [hsplit]
      intro p hp
      exact hwin p (List.mem_of_mem_tail hp)
    · rw [hsplit]
      intro p hp
      obtain ⟨u, hu, hupf, hupt⟩ := hwin p hp
      exact ⟨u, hu, le_of_eq hupf.symm, by omega⟩

/-- C1 counterexample: for `now` = 2024-02-29T12:00:00Z (epoch ms
`1709208000000`), the backfill start `now - 365d` is 2023-03-01T12:00:00Z —
day 1 of a month but not its first instant.  The first emitted window then
starts at 2023-03-01T00:00:00Z, before `now - 365d`, so the windows do NOT
cover exactly `[now-365d, now)`. -/
theorem splitTimePeriodByMonth_not_exact_cover :
    ¬ isChain 1677672000000
        (splitTimePeriodByMonth 1677672000000 1709208000000) 1709208000000 := by
  decide

/-- Witness for `splitTimePeriodByMonth_backfill` at the spec scenario
`now` = 2024-03-15T00:00:00Z (the backfill start 2023-03-16T00:00:00Z falls
on day 16). -/
theorem splitTimePeriodByMonth_backfill_witness :
    isChain (1710460800000 - 31536000000)
      (splitTimePeriodByMonth (1710460800000 - 31536000000) 1710460800000)
      1710460800000 ∧
    (splitTimePeriodByMonth (1710460800000 - 31536000000) 1710460800000).Pairwise
      (fun p q => p.toMs ≤ q.fromMs) ∧
    (splitTimePeriodByMonth (1710460800000 - 31536000000) 1710460800000).head? =
      some ⟨1710460800000 - 31536000000,
        min (addMonthGo (monthStartSec (goDiv (1710460800000 - 31536000000) 1000)) * 1000)
          1710460800000⟩ ∧
    (∀ p ∈ (splitTimePeriodByMonth (1710460800000 - 31536000000) 1710460800000).tail,
      ∃ u, IsMonthStart u ∧ p.fromMs = u * 1000 ∧
        p.toMs = min (addMonthGo u * 1000) 1710460800000) ∧
    (∀ p ∈ splitTimePeriodByMonth (1710460800000 - 31536000000) 1710460800000,
      ∃ u, IsMonthStart u ∧ u * 1000 ≤ p.fromMs ∧ p.toMs ≤ addMonthGo u * 1000) :=
  splitTimePeriodByMonth_backfill 1710460800000 (by decide) (Or.inl (by decide))

theorem foldlMin_spec : ∀ (ws : List Int) (a : Int),
    ws.foldl (fun x w => if w < x then w else x) a ≤ a ∧
    (∀ w ∈ ws, ws.foldl (fun x w => if w < x then w else x) a ≤ w) ∧
    (ws.foldl (fun x w => if w < x then w else x) a = a ∨
      ws.foldl (fun x w => if w < x then w else x) a ∈ ws) := by
  intro ws
  induction ws with
  | nil => intro a; simp
  | cons w ws ih =>
    intro a
    by_cases hw : w < a
    · simp only [List.foldl_cons, if_pos hw]
      obtain ⟨ih1, ih2, ih3⟩ := ih w
      refine ⟨by omega, ?_, ?_⟩
      · intro v hv
        rcases List.mem_cons.mp hv with rfl | hv
        · exact ih1
        · exact ih2 v hv
      · rcases ih3 with h | h
        · exact Or.inr (by rw [h]; exact List.mem_cons_self w ws)
        · exact Or.inr (List.mem_cons_of_mem w h)
    · simp only [List.foldl_cons, if_neg hw]
      obtain ⟨ih1, ih2, ih3⟩ := ih a
      refine ⟨ih1, ?_, ?_⟩
      · intro v hv
        rcases List.mem_cons.mp hv with rfl | hv
        · omega
        · exact ih2 v hv
      · rcases ih3 with h | h
        · exact Or.inl h
        · exact Or.inr (List.mem_cons_of_mem w h)

theorem watermarkOf_pos (rs : List (String × Except Unit Int)) :
    ∀ w ∈ rs.filterMap watermarkOf, 0 < w := by
  intro w hw
  obtain ⟨e, _, he⟩ := List.mem_filterMap.mp hw
  obtain ⟨k, r⟩ := e
  cases r with
  | error u => simp [watermarkOf] at he
  | ok lastTs =>
    by_cases h : 0 < lastTs
    · simp [watermarkOf, h] at he
      omega
    · simp [watermarkOf, h] at he

theorem splitDaysGo_head (tsTo intervalMs : Int) (fuel : Nat) (current : Int)
    (hfuel : 0 < fuel) (h : current < tsTo) :
    (splitDaysGo tsTo intervalMs fuel current).head?.map timePeriod.fromMs
      = some current := by
  cases fuel with
  | zero => omega
  | succ fuel => simp [splitDaysGo, h]

theorem planExistingPeriods_head (now tsFrom : Int) :
    (planExistingPeriods now tsFrom).head?.map timePeriod.fromMs = some tsFrom := by
  unfold planExistingPeriods
  by_cases hs : tsFrom < now - 2592000000
  · rw [if_pos hs]
    unfold splitTimePeriodByDays
    exact splitDaysGo_head now (30 * 86400000) (now - tsFrom).toNat tsFrom (by omega)
      (by omega)
  · rw [if_neg hs]
    rfl

/-- C8: for a station with mixed watermark state (both groups non-empty) and
all watermarks in the past, the orchestrator partitions sensors into the new
group (errors and zero timestamps) and the existing group (positive
timestamps); the new group shares one 365-day monthly backfill, and the
existing group windows start at `minW + 1`, where `minW` is the minimum
watermark over the existing group — so no existing-sensor fetch gap starts
before the chosen lower bound. -/
theorem processDevicePlan_mixed (now : Int) (rs : List (String × Except Unit Int))
    (hnew : rs.filterMap newKeyOf ≠ [])
    (hexw : rs.filterMap watermarkOf ≠ [])
    (hlt : ∀ w ∈ rs.filterMap watermarkOf, w < now) :
    (processDevicePlan now rs).newSensors = rs.filterMap newKeyOf ∧
    (processDevicePlan now rs).existingSensors = rs.filterMap existingKeyOf ∧
    (processDevicePlan now rs).newPeriods
      = splitTimePeriodByMonth (now - 31536000000) now ∧
    ∃ minW, minW ∈ rs.filterMap watermarkOf ∧
      (∀ w ∈ rs.filterMap watermarkOf, minW ≤ w) ∧
      ((processDevicePlan now rs).existingPeriods.head?.map timePeriod.fromMs)
        = some (minW + 1) := by
  obtain ⟨c1, c2, c3, c4⟩ := scanSensors_characterization now rs
  obtain ⟨f1, f2, f3⟩ := foldlMin_spec (rs.filterMap watermarkOf) now
  have hmem : (scanSensors now rs).minTsFrom ∈ rs.filterMap watermarkOf := by
    rcases f3 with h | h
    · exfalso
      obtain ⟨w0, hw0⟩ := List.exists_mem_of_ne_nil _ hexw
      have := f2 w0 hw0
      have := hlt w0 hw0
      rw [← c4] at *
      omega
    · rw [c4]; exact h
  have hminlt : (scanSensors now rs).minTsFrom < now := hlt _ hmem
  have hminpos : 0 < (scanSensors now rs).minTsFrom := watermarkOf_pos rs _ hmem
  have hcf : computeTsFrom now (scanSensors now rs).minTsFrom
      = (scanSensors now rs).minTsFrom + 1 := by
    unfold computeTsFrom
    rw [if_pos ⟨hminlt, hminpos⟩]
  have hexne : (scanSensors now rs).existingSensors ≠ [] := by
    rw [c2]
    intro hcon
    obtain ⟨w0, hw0⟩ := List.exists_mem_of_ne_nil _ hexw
    obtain ⟨e, he, hwe⟩ := List.mem_filterMap.mp hw0
    have : existingKeyOf e = some e.1 := by
      obtain ⟨k, r⟩ := e
      cases r with
      | error u => simp [watermarkOf] at hwe
      | ok lastTs =>
        by_cases h : 0 < lastTs
        · simp [existingKeyOf, h]
        · simp [watermarkOf, h] at hwe
    have : e.1 ∈ rs.filterMap existingKeyOf := List.mem_filterMap.mpr ⟨e, he, this⟩
    rw [hcon] at this
    cases this
  have hnewne : (scanSensors now rs).newSensors ≠ [] := by rw [c1]; exact hnew
  have hnewE : (scanSensors now rs).newSensors.isEmpty = false := by
    cases hl : (scanSensors now rs).newSensors with
    | nil => exact absurd hl hnewne
    | cons x xs => rfl
  have hexE : (scanSensors now rs).existingSensors.isEmpty = false := by
    cases hl : (scanSensors now rs).existingSensors with
    | nil => exact absurd hl hexne
    | cons x xs => rfl
  refine ⟨?_, ?_, ?_, ?_⟩
  · simpa [processDevicePlan] using c1
  · simpa [processDevicePlan] using c2
  · simp only [processDevicePlan]
    rw [hnewE]
    simp
  · refine ⟨(scanSensors now rs).minTsFrom, hmem, ?_, ?_⟩
    · intro w hw
      rw [c4]
      exact f2 w hw
    · simp only [processDevicePlan]
      rw [hexE]
      simp only [Bool.false_eq_true, if_false]
      rw [hcf]
      exact planExistingPeriods_head now _

/-- Witness for `processDevicePlan_mixed`: one existing sensor, one read
error, one sensor without rows. -/
theorem processDevicePlan_mixed_witness :
    ([("airtemp", Except.ok 1699990000000), ("soiltemp", Except.error ()),
        ("rainfall", Except.ok 0)] : List (String × Except Unit Int)).filterMap
          newKeyOf ≠ [] ∧
    (processDevicePlan 1700000000000
        [("airtemp", Except.ok 1699990000000), ("soiltemp", Except.error ()),
          ("rainfall", Except.ok 0)]).newSensors
      = ([("airtemp", Except.ok 1699990000000), ("soiltemp", Except.error ()),
          ("rainfall", Except.ok 0)] : List (String × Except Unit Int)).filterMap
            newKeyOf ∧
    (processDevicePlan 1700000000000
        [("airtemp", Except.ok 1699990000000), ("soiltemp", Except.error ()),
          ("rainfall", Except.ok 0)]).existingSensors
      = ([("airtemp", Except.ok 1699990000000), ("soiltemp", Except.error ()),
          ("rainfall", Except.ok 0)] : List (String × Except Unit Int)).filterMap
            existingKeyOf ∧
    (processDevicePlan 1700000000000
        [("airtemp", Except.ok 1699990000000), ("soiltemp", Except.error ()),
          ("rainfall", Except.ok 0)]).newPeriods
      = splitTimePeriodByMonth (1700000000000 - 31536000000) 1700000000000 ∧
    ∃ minW, minW ∈ ([("airtemp", Except.ok 1699990000000),
        ("soiltemp", Except.error ()), ("rainfall", Except.ok 0)] :
          List (String × Except Unit Int)).filterMap watermarkOf ∧
      (∀ w ∈ ([("airtemp", Except.ok 1699990000000), ("soiltemp", Except.error ()),
          ("rainfall", Except.ok 0)] : List (String × Except Unit Int)).filterMap
            watermarkOf, minW ≤ w) ∧
      ((processDevicePlan 1700000000000
          [("airtemp", Except.ok 1699990000000), ("soiltemp", Except.error ()),
            ("rainfall", Except.ok 0)]).existingPeriods.head?.map timePeriod.fromMs)
        = some (minW + 1) := by
  have h := processDevicePlan_mixed 1700000000000
    [("airtemp", Except.ok 1699990000000), ("soiltemp", Except.error ()),
      ("rainfall", Except.ok 0)] (by decide) (by decide) (by decide)
  exact ⟨by decide, h⟩

/-- C9: a sensor whose watermark read fails is put in the new group (it gets
the full-history monthly backfill) and the processing of the remaining
sensors is unaffected: the existing group, the minimum watermark, and the
windows planned for the existing group are exactly those computed without
the failing sensor. -/
theorem scanSensors_error_treated_as_new (now : Int) (k : String)
    (rs1 rs2 : List (String × Except Unit Int)) :
    (scanSensors now (rs1 ++ (k, Except.error ()) :: rs2)).newSensors
      = rs1.filterMap newKeyOf ++ k :: rs2.filterMap newKeyOf ∧
    (scanSensors now (rs1 ++ (k, Except.error ()) :: rs2)).existingSensors
      = (scanSensors now (rs1 ++ rs2)).existingSensors ∧
    (scanSensors now (rs1 ++ (k, Except.error ()) :: rs2)).minTsFrom
      = (scanSensors now (rs1 ++ rs2)).minTsFrom ∧
    (processDevicePlan now (rs1 ++ (k, Except.error ()) :: rs2)).newPeriods
      = splitTimePeriodByMonth (now - 31536000000) now ∧
    (processDevicePlan now (rs1 ++ (k, Except.error ()) :: rs2)).existingPeriods
      = (processDevicePlan now (rs1 ++ rs2)).existingPeriods := by
  obtain ⟨c1, c2, c3, c4⟩ := scanSensors_characterization now
    (rs1 ++ (k, Except.error ()) :: rs2)
  obtain ⟨d1, d2, d3, d4⟩ := scanSensors_characterization now (rs1 ++ rs2)
  have hnk : newKeyOf (k, Except.error ()) = some k := rfl
  have hek : existingKeyOf (k, Except.error ()) = none := rfl
  have hwk : watermarkOf (k, Except.error ()) = none := rfl
  have e1 : (scanSensors now (rs1 ++ (k, Except.error ()) :: rs2)).newSensors
      = rs1.filterMap newKeyOf ++ k :: rs2.filterMap newKeyOf := by
    rw [c1, List.filterMap_append, List.filterMap_cons, hnk]
  have e2 : (scanSensors now (rs1 ++ (k, Except.error ()) :: rs2)).existingSensors
      = (scanSensors now (rs1 ++ rs2)).existingSensors := by
    rw [c2, d2, List.filterMap_append, List.filterMap_cons, hek,
      List.filterMap_append]
  have e4 : (scanSensors now (rs1 ++ (k, Except.error ()) :: rs2)).minTsFrom
      = (scanSensors now (rs1 ++ rs2)).minTsFrom := by
    rw [c4, d4, List.filterMap_append, List.filterMap_cons, hwk,
      List.filterMap_append]
  have hne : (scanSensors now (rs1 ++ (k, Except.error ()) :: rs2)).newSensors ≠ [] := by
    rw [e1]
    intro hcon
    exact absurd (List.append_eq_nil.mp hcon).2 (by simp)
  have hnewE : (scanSensors now (rs1 ++ (k, Except.error ()) :: rs2)).newSensors.isEmpty
      = false := by
    cases hl : (scanSensors now (rs1 ++ (k, Except.error ()) :: rs2)).newSensors with
    | nil => exact absurd hl hne
    | cons x xs => rfl
  refine ⟨e1, e2, e4, ?_, ?_⟩
  · simp only [processDevicePlan]
    rw [hnewE]
    simp
  · simp only [processDevicePlan]
    rw [e2, e4]

theorem setRow_value_self (r : Row) : ({ r with value := r.value } : Row) = r := by
  cases r
  rfl

theorem rowKey_set_value (r : Row) (v : Rat) :
    rowKey ({ r with value := v } : Row) = rowKey r := by
  cases r
  rfl

theorem storePoints_eq_runKVs (deviceID sensorKey : String) :
    ∀ (points : List TelemetryPoint) (store : List Row),
      storePoints deviceID sensorKey store points
        = runKVs store (pointKVs deviceID sensorKey points) := by
  intro points
  induction points with
  | nil => intro store; rfl
  | cons p pts ih =>
    intro store
    simp only [storePoints, List.foldl_cons, pointKVs, List.filterMap_cons]
    cases hv : numericOf p.value with
    | none =>
      simp only [Option.map_none]
      exact ih store
    | some v =>
      simp only [Option.map_some]
      rw [show (List.foldl (fun s p =>
          match numericOf p.value with
          | none => s
          | some v => upsertPoint s deviceID sensorKey p.ts v)
          (upsertPoint store deviceID sensorKey p.ts v) pts)
        = storePoints deviceID sensorKey (upsertPoint store deviceID sensorKey p.ts v) pts
          from rfl]
      rw [ih]
      rfl

theorem StoreTelemetry_eq_runKVs (deviceID : String) :
    ∀ (data : List (String × List TelemetryPoint)) (store : List Row),
      StoreTelemetry deviceID data store = runKVs store (batchKVs deviceID data) := by
  intro data
  induction data with
  | nil => intro store; rfl
  | cons e data ih =>
    intro store
    simp only [StoreTelemetry, List.foldl_cons, batchKVs, List.map_cons,
      List.flatten_cons]
    rw [show (List.foldl (fun s e => storePoints deviceID e.1 s e.2)
        (storePoints deviceID e.1 store e.2) data)
      = StoreTelemetry deviceID data (storePoints deviceID e.1 store e.2) from rfl]
    rw [ih, storePoints_eq_runKVs]
    simp only [runKVs, List.foldl_append]
    rfl

theorem upsertKV_present (store : List Row) (kv : (String × String × Int) × Rat)
    (h : kv.1 ∈ store.map rowKey) :
    upsertKV store kv
      = store.map (fun r => if rowKey r = kv.1 then { r with value := kv.2 } else r) := by
  obtain ⟨⟨st, sk, ts⟩, v⟩ := kv
  simp only [upsertKV, upsertPoint]
  rw [if_pos]
  rw [List.any_eq_true]
  obtain ⟨r0, hr0, hk0⟩ := List.mem_map.mp h
  exact ⟨r0, hr0, by simp [hk0]⟩

theorem upsertKV_absent (store : List Row) (kv : (String × String × Int) × Rat)
    (h : kv.1 ∉ store.map rowKey) :
    upsertKV store kv
      = store ++ [⟨kv.1.1, kv.1.2.1, kv.1.2.2, goDiv kv.1.2.2 1000, kv.2⟩] := by
  obtain ⟨⟨st, sk, ts⟩, v⟩ := kv
  simp only [upsertKV, upsertPoint]
  rw [if_neg]
  rw [List.any_eq_true]
  rintro ⟨r0, hr0, hk0⟩
  exact h (List.mem_map.mpr ⟨r0, hr0, by simpa using hk0⟩)

theorem rowKey_mk (st sk : String) (ts dv : Int) (v : Rat) :
    rowKey ⟨st, sk, ts, dv, v⟩ = (st, sk, ts) := rfl

theorem upsertKV_keys (store : List Row) (kv : (String × String × Int) × Rat) :
    (upsertKV store kv).map rowKey
      = if kv.1 ∈ store.map rowKey then store.map rowKey
        else store.map rowKey ++ [kv.1] := by
  by_cases h : kv.1 ∈ store.map rowKey
  · rw [if_pos h, upsertKV_present store kv h, List.map_map]
    refine List.map_congr_left ?_
    intro r _
    simp only [Function.comp]
    split
    · rw [rowKey_set_value]
    · rfl
  · rw [if_neg h, upsertKV_absent store kv h, List.map_append]
    obtain ⟨⟨st, sk, ts⟩, v⟩ := kv
    rfl

theorem upsertKV_value (store : List Row) (kv : (String × String × Int) × Rat) :
    ∀ r ∈ upsertKV store kv, rowKey r = kv.1 → r.value = kv.2 := by
  intro r hr hkey
  by_cases h : kv.1 ∈ store.map rowKey
  · rw [upsertKV_present store kv h] at hr
    obtain ⟨r0, hr0, hup⟩ := List.mem_map.mp hr
    by_cases hc : rowKey r0 = kv.1
    · rw [if_pos hc] at hup
      rw [← hup]
    · rw [if_neg hc] at hup
      rw [← hup] at hkey
      exact absurd hkey hc
  · rw [upsertKV_absent store kv h] at hr
    rcases List.mem_append.mp hr with hr | hr
    · exact absurd (hkey ▸ List.mem_map.mpr ⟨r, hr, rfl⟩) h
    · rcases List.mem_singleton.mp hr with rfl
      rfl

theorem upsertKV_other (store : List Row) (kv : (String × String × Int) × Rat)
    (k : String × String × Int) (hne : kv.1 ≠ k) :
    ∀ r ∈ upsertKV store kv, rowKey r = k → r ∈ store := by
  intro r hr hkey
  by_cases h : kv.1 ∈ store.map rowKey
  · rw [upsertKV_present store kv h] at hr
    obtain ⟨r0, hr0, hup⟩ := List.mem_map.mp hr
    by_cases hc : rowKey r0 = kv.1
    · rw [if_pos hc] at hup
      rw [← hup, rowKey_set_value] at hkey
      exact absurd (hc.symm.trans hkey) hne
    · rw [if_neg hc] at hup
      rw [← hup]
      exact hr0
  · rw [upsertKV_absent store kv h] at hr
    rcases List.mem_append.mp hr with hr | hr
    · exact hr
    · rcases List.mem_singleton.mp hr with rfl
      obtain ⟨⟨st, sk, ts⟩, v⟩ := kv
      exact absurd hkey (by simpa using hne)

theorem upsertKV_provenance (store : List Row) (kv : (String × String × Int) × Rat) :
    ∀ r ∈ upsertKV store kv, r ∈ store ∨ rowKey r = kv.1 := by
  intro r hr
  by_cases h : kv.1 ∈ store.map rowKey
  · rw [upsertKV_present store kv h] at hr
    obtain ⟨r0, hr0, hup⟩ := List.mem_map.mp hr
    by_cases hc : rowKey r0 = kv.1
    · rw [if_pos hc] at hup
      right
      rw [← hup, rowKey_set_value]
      exact hc
    · rw [if_neg hc] at hup
      exact Or.inl (hup ▸ hr0)
  · rw [upsertKV_absent store kv h] at hr
    rcases List.mem_append.mp hr with hr | hr
    · exact Or.inl hr
    · rcases List.mem_singleton.mp hr with rfl
      obtain ⟨⟨st, sk, ts⟩, v⟩ := kv
      exact Or.inr rfl

theorem runKVs_keys_mono (k : String × String × Int) :
    ∀ (l : List ((String × String × Int) × Rat)) (store : List Row),
      k ∈ store.map rowKey → k ∈ (runKVs store l).map rowKey := by
  intro l
  induction l with
  | nil => intro store h; exact h
  | cons kv l ih =>
    intro store h
    refine ih (upsertKV store kv) ?_
    rw [upsertKV_keys]
    split
    · exact h
    · exact List.mem_append_left _ h

theorem runKVs_key_present :
    ∀ (l : List ((String × String × Int) × Rat)) (store : List Row)
      (kv : (String × String × Int) × Rat), kv ∈ l →
      kv.1 ∈ (runKVs store l).map rowKey := by
  intro l
  induction l with
  | nil => intro store kv h; cases h
  | cons kv0 l ih =>
    intro store kv h
    rcases List.mem_cons.mp h with rfl | h
    · refine runKVs_keys_mono kv.1 l (upsertKV store kv) ?_
      rw [upsertKV_keys]
      split
      · assumption
      · exact List.mem_append_right _ (List.mem_singleton.mpr rfl)
    · exact ih (upsertKV store kv0) kv h

theorem runKVs_other (k : String × String × Int) :
    ∀ (l : List ((String × String × Int) × Rat)) (store : List Row),
      (∀ kv ∈ l, kv.1 ≠ k) →
      ∀ r ∈ runKVs store l, rowKey r = k → r ∈ store := by
  intro l
  induction l with
  | nil => intro store _ r hr _; exact hr
  | cons kv l ih =>
    intro store hne r hr hkey
    have hr2 := ih (upsertKV store kv) (fun kv2 h2 => hne kv2 (List.mem_cons_of_mem kv h2))
      r hr hkey
    exact upsertKV_other store kv k (hne kv (List.mem_cons_self kv l)) r hr2 hkey

theorem runKVs_provenance :
    ∀ (l : List ((String × String × Int) × Rat)) (store : List Row),
      ∀ r ∈ runKVs store l, r ∈ store ∨ ∃ kv ∈ l, rowKey r = kv.1 := by
  intro l
  induction l with
  | nil => intro store r hr; exact Or.inl hr
  | cons kv l ih =>
    intro store r hr
    rcases ih (upsertKV store kv) r hr with h | ⟨kv2, hkv2, hk⟩
    · rcases upsertKV_provenance store kv r h with h | h
      · exact Or.inl h
      · exact Or.inr ⟨kv, List.mem_cons_self kv l, h⟩
    · exact Or.inr ⟨kv2, List.mem_cons_of_mem kv hkv2, hk⟩

theorem lastVal_foldl (k : String × String × Int) :
    ∀ (l : List ((String × String × Int) × Rat)) (a : Option Rat),
      l.foldl (fun acc kv => if kv.1 = k then some kv.2 else acc) a
        = (lastVal l k).elim a some := by
  intro l
  induction l with
  | nil => intro a; rfl
  | cons kv l ih =>
    intro a
    simp only [List.foldl_cons]
    rw [ih, show lastVal (kv :: l) k
      = l.foldl (fun acc kv => if kv.1 = k then some kv.2 else acc)
          (if kv.1 = k then some kv.2 else none) from rfl]
    rw [ih]
    cases lastVal l k with
    | some v => rfl
    | none =>
      simp only [Option.elim_none]
      by_cases hc : kv.1 = k
      · rw [if_pos hc, if_pos hc]
        rfl
      · rw [if_neg hc, if_neg hc]
        rfl

theorem lastVal_cons (kv : (String × String × Int) × Rat)
    (l : List ((String × String × Int) × Rat)) (k : String × String × Int) :
    lastVal (kv :: l) k
      = (lastVal l k).elim (if kv.1 = k then some kv.2 else none) some := by
  rw [show lastVal (kv :: l) k
    = l.foldl (fun acc kv => if kv.1 = k then some kv.2 else acc)
        (if kv.1 = k then some kv.2 else none) from rfl]
  exact lastVal_foldl k l _

theorem lastVal_none (k : String × String × Int) :
    ∀ (l : List ((String × String × Int) × Rat)), lastVal l k = none →
      ∀ kv ∈ l, kv.1 ≠ k := by
  intro l
  induction l with
  | nil => intro _ kv h; cases h
  | cons kv0 l ih =>
    intro h kv hkv
    rw [lastVal_cons] at h
    cases hlv : lastVal l k with
    | some v => rw [hlv] at h; cases h
    | none =>
      rw [hlv] at h
      simp only [Option.elim_none] at h
      rcases List.mem_cons.mp hkv with rfl | hkv
      · intro hc
        rw [if_pos hc] at h
        cases h
      · exact ih hlv kv hkv

theorem runKVs_lastVal (k : String × String × Int) (v : Rat) :
    ∀ (l : List ((String × String × Int) × Rat)) (store : List Row),
      lastVal l k = some v → ∀ r ∈ runKVs store l, rowKey r = k → r.value = v := by
  intro l
  induction l with
  | nil => intro store h; cases h
  | cons kv l ih =>
    intro store h r hr hkey
    rw [lastVal_cons] at h
    cases hlv : lastVal l k with
    | some v2 =>
      rw [hlv] at h
      simp only [Option.elim_some] at h
      exact ih (upsertKV store kv) (hlv.trans (by rw [h])) r hr hkey
    | none =>
      rw [hlv] at h
      simp only [Option.elim_none] at h
      by_cases hc : kv.1 = k
      · rw [if_pos hc] at h
        have hmem : r ∈ upsertKV store kv :=
          runKVs_other k l (upsertKV store kv) (lastVal_none k l hlv) r hr hkey
        have := upsertKV_value store kv r hmem (by rw [hkey, hc])
        rw [this, ← Option.some_inj.mp h]
      · rw [if_neg hc] at h
        cases h

theorem setRow_value_twice (r : Row) (v w : Rat) :
    ({ ({ r with value := w } : Row) with value := v } : Row)
      = ({ r with value := v } : Row) := by
  cases r
  rfl

theorem runKVs_update_only :
    ∀ (l : List ((String × String × Int) × Rat)) (store : List Row),
      (∀ kv ∈ l, kv.1 ∈ store.map rowKey) →
      runKVs store l = store.map (fun r =>
        (lastVal l (rowKey r)).elim r (fun v => { r with value := v })) := by
  intro l
  induction l with
  | nil =>
    intro store _
    rw [show lastVal [] = fun _ => (none : Option Rat) from rfl]
    simp [runKVs]
  | cons kv l ih =>
    intro store hkeys
    have hpres : kv.1 ∈ store.map rowKey := hkeys kv (List.mem_cons_self kv l)
    have hkeyseq : (upsertKV store kv).map rowKey = store.map rowKey := by
      rw [upsertKV_keys, if_pos hpres]
    have hrec : runKVs store (kv :: l) = runKVs (upsertKV store kv) l := rfl
    rw [hrec, ih (upsertKV store kv)
      (fun kv2 h2 => hkeyseq ▸ hkeys kv2 (List.mem_cons_of_mem kv h2))]
    rw [upsertKV_present store kv hpres, List.map_map]
    refine List.map_congr_left ?_
    intro r _
    simp only [Function.comp]
    by_cases hc : rowKey r = kv.1
    · rw [if_pos hc, rowKey_set_value]
      rw [lastVal_cons]
      cases hlv : lastVal l (rowKey r) with
      | some v => simp only [Option.elim_some]
      | none =>
        simp only [Option.elim_none]
        rw [if_pos hc.symm]
        rfl
    · rw [if_neg hc]
      rw [lastVal_cons]
      cases hlv : lastVal l (rowKey r) with
      | some v => rfl
      | none =>
        simp only [Option.elim_none]
        rw [if_neg (fun h => hc h.symm)]
        rfl

theorem runKVs_idem (l : List ((String × String × Int) × Rat)) (store : List Row) :
    runKVs (runKVs store l) l = runKVs store l := by
  have hkeys : ∀ kv ∈ l, kv.1 ∈ (runKVs store l).map rowKey :=
    fun kv hkv => runKVs_key_present l store kv hkv
  rw [runKVs_update_only l (runKVs store l) hkeys]
  have hpt : ∀ r ∈ runKVs store l,
      (lastVal l (rowKey r)).elim r (fun v => ({ r with value := v } : Row)) = r := by
    intro r hr
    cases hlv : lastVal l (rowKey r) with
    | none => rfl
    | some v =>
      simp only [Option.elim_some]
      have hval := runKVs_lastVal (rowKey r) v l store hlv r hr rfl
      rw [← hval]
  calc (runKVs store l).map (fun r =>
          (lastVal l (rowKey r)).elim r (fun v => ({ r with value := v } : Row)))
      = (runKVs store l).map id := List.map_congr_left (fun r hr => hpt r hr)
    _ = runKVs store l := List.map_id _

theorem runKVs_nodup_keys (l : List ((String × String × Int) × Rat)) :
    ∀ store : List Row, (store.map rowKey).Nodup → ((runKVs store l).map rowKey).Nodup := by
  induction l with
  | nil => intro store h; exact h
  | cons kv l ih =>
    intro store h
    refine ih (upsertKV store kv) ?_
    rw [upsertKV_keys]
    split
    · exact h
    · rw [List.nodup_append]
      exact ⟨h, List.nodup_singleton _, by simpa using fun hmem => by simp_all⟩

/-- C6: `StoreTelemetry` is idempotent — applying it twice with the same
input yields the same stored state as applying it once — and it never
creates a second row with an existing `(stationId, sensorKey, timestamp)`
key, so the `UNIQUE` constraint can never fire (no error is raised; the
model is total). -/
theorem StoreTelemetry_idempotent (deviceID : String)
    (data : List (String × List TelemetryPoint)) (store : List Row) :
    StoreTelemetry deviceID data (StoreTelemetry deviceID data store)
      = StoreTelemetry deviceID data store ∧
    ((store.map rowKey).Nodup →
      ((StoreTelemetry deviceID data store).map rowKey).Nodup) := by
  rw [StoreTelemetry_eq_runKVs, StoreTelemetry_eq_runKVs]
  exact ⟨runKVs_idem (batchKVs deviceID data) store,
    runKVs_nodup_keys (batchKVs deviceID data) store⟩

/-- Witness for `StoreTelemetry_idempotent` on a concrete two-point batch
over the empty store. -/
theorem StoreTelemetry_idempotent_witness :
    StoreTelemetry "S1"
        [("airtemp", [⟨1700000000000, GoValue.vfloat64 21⟩,
          ⟨1700000900000, GoValue.vfloat64 22⟩])]
        (StoreTelemetry "S1"
          [("airtemp", [⟨1700000000000, GoValue.vfloat64 21⟩,
            ⟨1700000900000, GoValue.vfloat64 22⟩])] [])
      = StoreTelemetry "S1"
          [("airtemp", [⟨1700000000000, GoValue.vfloat64 21⟩,
            ⟨1700000900000, GoValue.vfloat64 22⟩])] [] ∧
    ((StoreTelemetry "S1"
        [("airtemp", [⟨1700000000000, GoValue.vfloat64 21⟩,
          ⟨1700000900000, GoValue.vfloat64 22⟩])] []).map rowKey).Nodup :=
  ⟨(StoreTelemetry_idempotent "S1"
      [("airtemp", [⟨1700000000000, GoValue.vfloat64 21⟩,
        ⟨1700000900000, GoValue.vfloat64 22⟩])] []).1,
   (StoreTelemetry_idempotent "S1"
      [("airtemp", [⟨1700000000000, GoValue.vfloat64 21⟩,
        ⟨1700000900000, GoValue.vfloat64 22⟩])] []).2 (by decide)⟩

theorem pointKVs_filter (deviceID sensorKey : String) :
    ∀ pts : List TelemetryPoint,
      pointKVs deviceID sensorKey (pts.filter (fun p => (numericOf p.value).isSome))
        = pointKVs deviceID sensorKey pts := by
  intro pts
  induction pts with
  | nil => rfl
  | cons p pts ih =>
    cases hv : numericOf p.value with
    | none =>
      simp only [pointKVs, List.filter_cons, hv, Option.isSome_none,
        Bool.false_eq_true, if_false, List.filterMap_cons, Option.map_none]
      exact ih
    | some v =>
      simp only [pointKVs, List.filter_cons, hv, Option.isSome_some, if_true,
        List.filterMap_cons, Option.map_some]
      rw [show (List.filter (fun p => (numericOf p.value).isSome) pts).filterMap
          (fun p => (numericOf p.value).map (fun v => ((deviceID, sensorKey, p.ts), v)))
        = pointKVs deviceID sensorKey
            (pts.filter (fun p => (numericOf p.value).isSome)) from rfl]
      rw [ih]
      rfl

theorem batchKVs_filter (deviceID : String) (data : List (String × List TelemetryPoint)) :
    batchKVs deviceID (numericFilterBatch data) = batchKVs deviceID data := by
  simp only [batchKVs, numericFilterBatch, List.map_map]
  congr 1
  refine List.map_congr_left ?_
  intro e _
  simp only [Function.comp]
  exact pointKVs_filter deviceID e.1 e.2

/-- C7: points whose value is not numeric (`float64`, `float32`, `int`,
`int64`) are silently dropped: storing a batch equals storing the batch with
those points removed (in particular they contribute no row and no error),
and every stored row either pre-existed or is keyed by a numeric point of
the batch. -/
theorem StoreTelemetry_drops_nonnumeric (deviceID : String)
    (data : List (String × List TelemetryPoint)) (store : List Row) :
    StoreTelemetry deviceID data store
      = StoreTelemetry deviceID (numericFilterBatch data) store ∧
    ∀ r ∈ StoreTelemetry deviceID data store, r ∈ store ∨
      ∃ e ∈ data, ∃ p ∈ e.2, (numericOf p.value).isSome = true ∧
        rowKey r = (deviceID, e.1, p.ts) := by
  constructor
  · rw [StoreTelemetry_eq_runKVs, StoreTelemetry_eq_runKVs, batchKVs_filter]
  · intro r hr
    rw [StoreTelemetry_eq_runKVs] at hr
    rcases runKVs_provenance (batchKVs deviceID data) store r hr with h | ⟨kv, hkv, hk⟩
    · exact Or.inl h
    · right
      simp only [batchKVs] at hkv
      obtain ⟨le, hle, hkvle⟩ := List.mem_flatten.mp hkv
      obtain ⟨e, he, hee⟩ := List.mem_map.mp hle
      refine ⟨e, he, ?_⟩
      rw [← hee] at hkvle
      obtain ⟨p, hp, hpe⟩ := List.mem_filterMap.mp hkvle
      cases hv : numericOf p.value with
      | none => rw [hv] at hpe; cases hpe
      | some v =>
        rw [hv] at hpe
        simp at hpe
        refine ⟨p, hp, by rw [hv]; rfl, ?_⟩
        rw [hk, ← hpe]

/-- Witness for `StoreTelemetry_drops_nonnumeric`: a batch whose only point
has the non-numeric value `"N/A"` stores nothing. -/
theorem StoreTelemetry_drops_nonnumeric_witness :
    StoreTelemetry "S1" [("airtemp", [⟨1700000000000, GoValue.vstring "N/A"⟩])] []
      = StoreTelemetry "S1"
          (numericFilterBatch [("airtemp", [⟨1700000000000, GoValue.vstring "N/A"⟩])])
          [] ∧
    ∀ r ∈ StoreTelemetry "S1" [("airtemp", [⟨1700000000000, GoValue.vstring "N/A"⟩])] [],
      r ∈ ([] : List Row) ∨
      ∃ e ∈ [("airtemp", [(⟨1700000000000, GoValue.vstring "N/A"⟩ : TelemetryPoint)])],
        ∃ p ∈ e.2, (numericOf p.value).isSome = true ∧
          rowKey r = ("S1", e.1, p.ts) :=
  StoreTelemetry_drops_nonnumeric "S1"
    [("airtemp", [⟨1700000000000, GoValue.vstring "N/A"⟩])] []

theorem fetchLoopGo_ok {α : Type} :
    ∀ (bads : List (String × α)), (∀ b ∈ bads, b.1 ≠ "OK") →
      ∀ (d : α) (fs : List (FetchOutcome α)) (sids : List String)
        (ls : List (Except Unit String)), sids.length = bads.length →
        fetchLoopGo ((bads.map (fun b => FetchOutcome.resp b.1 b.2))
            ++ FetchOutcome.resp "OK" d :: fs) ((sids.map Except.ok) ++ ls)
          = (Except.ok d, bads.length) := by
  intro bads
  induction bads with
  | nil =>
    intro _ d fs sids ls hlen
    rw [List.length_nil, List.length_eq_zero] at hlen
    subst hlen
    simp only [List.map_nil, List.nil_append]
    simp [fetchLoopGo]
  | cons b bads ih =>
    intro hbad d fs sids ls hlen
    cases sids with
    | nil => simp at hlen
    | cons s sids =>
      simp only [List.map_cons, List.cons_append]
      rw [show fetchLoopGo
          (FetchOutcome.resp b.1 b.2 :: (List.map (fun b => FetchOutcome.resp b.1 b.2) bads
            ++ FetchOutcome.resp "OK" d :: fs))
          (Except.ok s :: (List.map Except.ok sids ++ ls))
        = if b.1 = "OK" then (Except.ok b.2, 0)
          else loginStep (fetchLoopGo (List.map (fun b => FetchOutcome.resp b.1 b.2) bads
            ++ FetchOutcome.resp "OK" d :: fs))
            (Except.ok s :: (List.map Except.ok sids ++ ls)) from rfl]
      rw [if_neg (hbad b (List.mem_cons_self b bads))]
      rw [show loginStep (fetchLoopGo (List.map (fun b => FetchOutcome.resp b.1 b.2) bads
            ++ FetchOutcome.resp "OK" d :: fs))
          (Except.ok s :: (List.map Except.ok sids ++ ls))
        = ((fetchLoopGo (List.map (fun b => FetchOutcome.resp b.1 b.2) bads
            ++ FetchOutcome.resp "OK" d :: fs) (List.map Except.ok sids ++ ls)).1,
           (fetchLoopGo (List.map (fun b => FetchOutcome.resp b.1 b.2) bads
            ++ FetchOutcome.resp "OK" d :: fs) (List.map Except.ok sids ++ ls)).2 + 1)
          from rfl]
      rw [ih (fun b2 h2 => hbad b2 (List.mem_cons_of_mem b h2)) d fs sids ls
        (by simpa using hlen)]
      rfl

theorem fetchLoopGo_login_fails {α : Type} (status : String) (hs : status ≠ "OK")
    (data : α) (fs : List (FetchOutcome α)) (ls : List (Except Unit String)) :
    fetchLoopGo (FetchOutcome.resp status data :: fs) (Except.error () :: ls)
      = (Except.error (), 1) := by
  rw [show fetchLoopGo (FetchOutcome.resp status data :: fs) (Except.error () :: ls)
    = if status = "OK" then (Except.ok data, 0)
      else loginStep (fetchLoopGo fs) (Except.error () :: ls) from rfl]
  rw [if_neg hs]
  rfl

/-- C2 counterexample: with a live session, two successive non-`"OK"`
responses followed by an `"OK"` response make `GetTelemetry` re-authenticate
TWICE and then succeed — the claimed behaviour (hard error after one failed
retry, at most one re-authentication per call) does not hold. -/
theorem getTelemetry_two_reauths :
    (GetTelemetryModel "sid0"
        [FetchOutcome.resp "error" [], FetchOutcome.resp "error" [],
          FetchOutcome.resp "OK" []]
        [Except.ok "s2", Except.ok "s3"]).2 = 2 ∧
    (GetTelemetryModel "sid0"
        [FetchOutcome.resp "error" [], FetchOutcome.resp "error" [],
          FetchOutcome.resp "OK" []]
        [Except.ok "s2", Except.ok "s3"]).1 ≠ Except.error () := by
  constructor
  · rfl
  · intro h
    cases h

/-- C2 (amended): on every non-success status the client re-authenticates
and retries the same call again, with no bound on the number of
re-authentications in one call: `n` failing responses followed by a success
yield success after exactly `n` re-logins (for both `GetTelemetry` and
`GetDevices`), and the call fails hard only when a re-login itself fails
(after exactly one authentication attempt for that retry). -/
theorem client_reauth_unbounded (sid : String) (hsid : sid ≠ "")
    (bads : List (String × List TelemetryData)) (hbad : ∀ b ∈ bads, b.1 ≠ "OK")
    (d : List TelemetryData) (fs : List (FetchOutcome (List TelemetryData)))
    (sids : List String) (ls : List (Except Unit String))
    (hlen : sids.length = bads.length)
    (badsD : List (String × List Device)) (hbadD : ∀ b ∈ badsD, b.1 ≠ "OK")
    (dD : List Device) (fsD : List (FetchOutcome (List Device)))
    (sidsD : List String) (lsD : List (Except Unit String))
    (hlenD : sidsD.length = badsD.length)
    (status : String) (hstat : status ≠ "OK") (data : List TelemetryData)
    (fs2 : List (FetchOutcome (List TelemetryData)))
    (ls2 : List (Except Unit String)) :
    GetTelemetryModel sid ((bads.map (fun b => FetchOutcome.resp b.1 b.2))
        ++ FetchOutcome.resp "OK" d :: fs) ((sids.map Except.ok) ++ ls)
      = (Except.ok (groupTelemetry d), bads.length) ∧
    GetDevicesModel sid ((badsD.map (fun b => FetchOutcome.resp b.1 b.2))
        ++ FetchOutcome.resp "OK" dD :: fsD) ((sidsD.map Except.ok) ++ lsD)
      = (Except.ok dD, badsD.length) ∧
    GetTelemetryModel sid (FetchOutcome.resp status data :: fs2)
        (Except.error () :: ls2)
      = (Except.error (), 1) := by
  refine ⟨?_, ?_, ?_⟩
  · unfold GetTelemetryModel
    rw [if_neg hsid, fetchLoopGo_ok bads hbad d fs sids ls hlen]
    rfl
  · unfold GetDevicesModel
    rw [if_neg hsid, fetchLoopGo_ok badsD hbadD dD fsD sidsD lsD hlenD]
  · unfold GetTelemetryModel
    rw [if_neg hsid, fetchLoopGo_login_fails status hstat data fs2 ls2]
    rfl

/-- Witness for `client_reauth_unbounded` with two failing responses. -/
theorem client_reauth_unbounded_witness :
    GetTelemetryModel "sid0"
        ((([("err1", ([] : List TelemetryData)), ("err2", [])]).map
            (fun b => FetchOutcome.resp b.1 b.2))
          ++ FetchOutcome.resp "OK" [] :: []) ((["s2", "s3"].map Except.ok) ++ [])
      = (Except.ok (groupTelemetry []), 2) ∧
    GetDevicesModel "sid0"
        ((([("err1", ([] : List Device))]).map (fun b => FetchOutcome.resp b.1 b.2))
          ++ FetchOutcome.resp "OK" [] :: []) ((["s2"].map Except.ok) ++ [])
      = (Except.ok [], 1) ∧
    GetTelemetryModel "sid0" (FetchOutcome.resp "error" [] :: [])
        (Except.error () :: [])
      = (Except.error (), 1) := by
  have h := client_reauth_unbounded "sid0" (by decide)
    [("err1", []), ("err2", [])] (by decide) [] [] ["s2", "s3"] [] (by decide)
    [("err1", [])] (by decide) [] [] ["s2"] [] (by decide)
    "error" (by decide) [] [] []
  exact h

theorem insertPointByKey_inv (R : String → TelemetryPoint → Prop)
    (acc : List (String × List TelemetryPoint)) (k : String) (pt : TelemetryPoint)
    (hacc : ∀ e ∈ acc, ∀ q ∈ e.2, R e.1 q) (hpt : R k pt) :
    ∀ e ∈ insertPointByKey acc k pt, ∀ q ∈ e.2, R e.1 q := by
  intro e he q hq
  unfold insertPointByKey at he
  split at he
  · obtain ⟨e0, he0, hee⟩ := List.mem_map.mp he
    by_cases hc : e0.1 = k
    · rw [if_pos hc] at hee
      rw [← hee] at hq ⊢
      simp only at hq ⊢
      rcases List.mem_append.mp hq with hq | hq
      · exact hacc e0 he0 q hq
      · rcases List.mem_singleton.mp hq with rfl
        rw [hc]
        exact hpt
    · rw [if_neg hc] at hee
      rw [← hee] at hq ⊢
      exact hacc e0 he0 q hq
  · rcases List.mem_append.mp he with he | he
    · exact hacc e he q hq
    · rcases List.mem_singleton.mp he with rfl
      rcases List.mem_singleton.mp hq with rfl
      exact hpt

theorem groupTelemetry_mem (ds : List TelemetryData) :
    ∀ e ∈ groupTelemetry ds, ∀ pt ∈ e.2,
      ∃ d ∈ ds, d.key = e.1 ∧ pt = toPoint d := by
  suffices h : ∀ (l : List TelemetryData) (acc : List (String × List TelemetryPoint)),
      (∀ e ∈ acc, ∀ q ∈ e.2, ∃ d ∈ ds, d.key = e.1 ∧ q = toPoint d) →
      (∀ d ∈ l, d ∈ ds) →
      ∀ e ∈ l.foldl (fun a d => insertPointByKey a d.key (toPoint d)) acc,
        ∀ q ∈ e.2, ∃ d ∈ ds, d.key = e.1 ∧ q = toPoint d by
    intro e he pt hpt
    exact h ds [] (by intro e he; cases he) (fun d hd => hd) e he pt hpt
  intro l
  induction l with
  | nil => intro acc hacc _; exact hacc
  | cons d l ih =>
    intro acc hacc hsub
    simp only [List.foldl_cons]
    refine ih (insertPointByKey acc d.key (toPoint d))
      (insertPointByKey_inv (fun k q => ∃ d ∈ ds, d.key = k ∧ q = toPoint d)
        acc d.key (toPoint d) hacc ⟨d, hsub d (List.mem_cons_self d l), rfl, rfl⟩)
      (fun d2 h2 => hsub d2 (List.mem_cons_of_mem d h2))

theorem toPoint_numeric_iff (d : TelemetryData) :
    (numericOf (toPoint d).value).isSome = true ↔ d.dblV ≠ 0 := by
  unfold toPoint
  by_cases h : d.dblV ≠ 0
  · simp only [if_pos h]
    simp [numericOf, h]
  · simp only [if_neg h]
    push_neg at h
    cases hs : d.strV <;> simp [strVToValue, numericOf, h]

/-- C10: a record whose `dbl_v` is exactly `0` gets its `str_v` (possibly
nil) as the point value; with no string value the point is non-numeric and
is skipped by `StoreTelemetry`; consequently every stored row originates
from a record with `dbl_v ≠ 0` — readings of exactly `0` are never
stored. -/
theorem zero_dblV_never_stored :
    (∀ d : TelemetryData, d.dblV = 0 → (toPoint d).value = strVToValue d.strV) ∧
    (∀ d : TelemetryData, d.dblV = 0 → d.strV = none →
      numericOf (toPoint d).value = none) ∧
    (∀ (deviceID : String) (ds : List TelemetryData) (store : List Row),
      ∀ r ∈ StoreTelemetry deviceID (groupTelemetry ds) store, r ∈ store ∨
        ∃ d ∈ ds, d.dblV ≠ 0 ∧ rowKey r = (deviceID, d.key, d.ts)) := by
  refine ⟨?_, ?_, ?_⟩
  · intro d h
    unfold toPoint
    rw [if_neg (by simpa using h)]
  · intro d h hs
    unfold toPoint
    rw [if_neg (by simpa using h), hs]
    rfl
  · intro deviceID ds store r hr
    rcases (StoreTelemetry_drops_nonnumeric deviceID (groupTelemetry ds) store).2 r hr
      with h | ⟨e, he, p, hp, hnum, hkey⟩
    · exact Or.inl h
    · right
      obtain ⟨d, hd, hdk, hdp⟩ := groupTelemetry_mem ds e he p hp
      refine ⟨d, hd, ?_, ?_⟩
      · rw [hdp] at hnum
        exact (toPoint_numeric_iff d).mp hnum
      · rw [hkey, hdk]
        have hts : p.ts = d.ts := by rw [hdp]; rfl
        rw [hts]

/-- Witness for `zero_dblV_never_stored` on a record with `dbl_v = 0` and
nil `str_v`. -/
theorem zero_dblV_never_stored_witness :
    (toPoint ⟨"e1", "airtemp", 1700000000000, 0, none⟩).value = strVToValue none ∧
    numericOf (toPoint ⟨"e1", "airtemp", 1700000000000, 0, none⟩).value = none ∧
    ∀ r ∈ StoreTelemetry "S1"
        (groupTelemetry [⟨"e1", "airtemp", 1700000000000, 0, none⟩]) [],
      r ∈ ([] : List Row) ∨
      ∃ d ∈ [(⟨"e1", "airtemp", 1700000000000, 0, none⟩ : TelemetryData)],
        d.dblV ≠ 0 ∧ rowKey r = ("S1", d.key, d.ts) :=
  ⟨zero_dblV_never_stored.1 ⟨"e1", "airtemp", 1700000000000, 0, none⟩ rfl,
   zero_dblV_never_stored.2.1 ⟨"e1", "airtemp", 1700000000000, 0, none⟩ rfl rfl,
   zero_dblV_never_stored.2.2 "S1" [⟨"e1", "airtemp", 1700000000000, 0, none⟩] []⟩
